import Mathlib

/-!
# Verification of the finance-whatsapp-bot ledger core

Shallow embedding of the repository's TypeScript core:
* `SheetUpdater` (src/sheets/sheetUpdater.ts): sheet addressing, add/replace
  updates, day/week/month aggregation, forecast;
* `MessageParser` (src/utils/messageParser.ts): command classification,
  amount normalisation, date extraction;
* `DateHelper` (src/utils/dateHelper.ts): natural-language date resolution;
* `MessageHandler` (src/bot/messageHandler.ts): building an `UpdateRequest`
  from a parsed message.

Modelling conventions:
* JavaScript numbers are modelled as exact rationals (`ℚ`); the amounts in
  the claims have at most a few decimal digits, far below double precision.
* Strings are processed as `List Char` (`String.data`); the storage
  collaborator (Google Sheets) is a total map from A1-style cell names to
  cell text, with the empty string standing for a blank cell.
* Recursive scanners use an explicit fuel argument where the recursion is
  not structural, so that all definitions reduce in the kernel.
-/

/-! ## Characters and digit strings -/

/-- Digit character for `d` (meaningful for `d < 10`), i.e.
`String.fromCharCode(48 + d)`. -/
def digitChar (d : Nat) : Char := Char.ofNat (48 + d)

/-- Numeric value of a digit character (JS `charCode - 48`). -/
def digitVal (c : Char) : Nat := c.toNat - 48

/-- ASCII decimal-digit test (regex `\d`). -/
def isDigitC (c : Char) : Bool := 48 ≤ c.toNat && c.toNat ≤ 57

/-- JS whitespace test (regex `\s`), covering the characters that can occur
here: space, tab, LF, VT, FF, CR and NBSP (U+00A0). -/
def isWsJS (c : Char) : Bool :=
  c = ' ' || c.toNat = 9 || c.toNat = 10 || c.toNat = 11 || c.toNat = 12 ||
  c.toNat = 13 || c.toNat = 160

/-- Fuel-driven decimal digits of a natural number, most significant first
(the digit sequence JS produces for an integer). -/
def natDigitsAux : Nat → Nat → List Char
  | 0, _ => []
  | fuel + 1, n =>
    if n < 10 then [digitChar n]
    else natDigitsAux fuel (n / 10) ++ [digitChar (n % 10)]

/-- Decimal digit characters of `n`, most significant first. -/
def natDigits (n : Nat) : List Char := natDigitsAux (n + 1) n

/-- Render a natural number the way JS template literals do (`${n}`). -/
def natStr (n : Nat) : String := String.mk (natDigits n)

/-- Value of a digit string read left to right. -/
def digitsVal (l : List Char) : Nat := l.foldl (fun a c => 10 * a + digitVal c) 0

/-- Value of a digit string as a rational. -/
def digitsValQ (l : List Char) : ℚ := (digitsVal l : ℚ)

/-- Two-digit zero-padded rendering of `r` (meaningful for `r < 100`):
the fraction part produced by `toFixed(2)`. -/
def pad2 (r : Nat) : List Char := [digitChar (r / 10), digitChar (r % 10)]

theorem digitVal_digitChar : ∀ d : Nat, d < 10 → digitVal (digitChar d) = d := by
  decide

theorem isDigitC_digitChar : ∀ d : Nat, d < 10 → isDigitC (digitChar d) = true := by
  decide

theorem natDigitsAux_ne_nil (fuel n : Nat) (h : n < fuel) :
    natDigitsAux fuel n ≠ [] := by
  cases fuel with
  | zero => omega
  | succ f =>
    unfold natDigitsAux
    split
    · simp
    · simp

theorem mem_natDigitsAux_isDigit (fuel n : Nat) (h : n < fuel) :
    ∀ c ∈ natDigitsAux fuel n, isDigitC c = true := by
  induction fuel generalizing n with
  | zero => omega
  | succ f ih =>
    unfold natDigitsAux
    split
    · intro c hc
      simp only [List.mem_singleton] at hc
      subst hc
      exact isDigitC_digitChar n (by omega)
    · intro c hc
      rw [List.mem_append] at hc
      rcases hc with hc | hc
      · exact ih (n / 10) (by omega) c hc
      · simp only [List.mem_singleton] at hc
        subst hc
        exact isDigitC_digitChar (n % 10) (by omega)

theorem mem_natDigits_isDigit (n : Nat) :
    ∀ c ∈ natDigits n, isDigitC c = true :=
  mem_natDigitsAux_isDigit (n + 1) n (by omega)

theorem digitsVal_append (l1 l2 : List Char) :
    digitsVal (l1 ++ l2) =
      l2.foldl (fun a c => 10 * a + digitVal c) (digitsVal l1) := by
  simp [digitsVal, List.foldl_append]

theorem digitsVal_natDigitsAux (fuel n : Nat) (h : n < fuel) :
    digitsVal (natDigitsAux fuel n) = n := by
  induction fuel generalizing n with
  | zero => omega
  | succ f ih =>
    unfold natDigitsAux
    split
    · next hlt =>
      simp [digitsVal, digitVal_digitChar n hlt]
    · next hge =>
      rw [digitsVal_append, ih (n / 10) (by omega)]
      simp only [List.foldl_cons, List.foldl_nil]
      rw [digitVal_digitChar (n % 10) (by omega)]
      omega

theorem digitsVal_natDigits (n : Nat) : digitsVal (natDigits n) = n :=
  digitsVal_natDigitsAux (n + 1) n (by omega)

theorem digitsVal_pad2 (r : Nat) (h : r < 100) : digitsVal (pad2 r) = r := by
  simp only [pad2, digitsVal, List.foldl_cons, List.foldl_nil]
  rw [digitVal_digitChar (r / 10) (by omega), digitVal_digitChar (r % 10) (by omega)]
  omega

theorem mem_pad2_isDigit (r : Nat) (h : r < 100) :
    ∀ c ∈ pad2 r, isDigitC c = true := by
  intro c hc
  simp only [pad2, List.mem_cons, List.not_mem_nil, or_false] at hc
  rcases hc with hc | hc <;> subst hc
  · exact isDigitC_digitChar (r / 10) (by omega)
  · exact isDigitC_digitChar (r % 10) (by omega)

/-! ## JS string helpers -/

/-- `String.prototype.trim` from the left. -/
def trimLeftL (l : List Char) : List Char := l.dropWhile isWsJS

/-- `String.prototype.trim` (drop JS whitespace on both ends). -/
def trimL (l : List Char) : List Char :=
  ((trimLeftL l).reverse.dropWhile isWsJS).reverse

/-- Replace the first occurrence of character `a` by `b`
(JS `replace(a, b)` with string arguments replaces only the first hit). -/
def replFirst (a b : Char) : List Char → List Char
  | [] => []
  | c :: rest => if c = a then b :: rest else c :: replFirst a b rest

/-- JS `split('.')`: split on every dot, keeping empty pieces. -/
def splitDot : List Char → List (List Char)
  | [] => [[]]
  | c :: rest =>
    if c = '.' then [] :: splitDot rest
    else
      match splitDot rest with
      | [] => [[c]]
      | h :: t => (c :: h) :: t

/-- Concatenation of a list of pieces (JS `array.join('')`). -/
def concatAll (ps : List (List Char)) : List Char := ps.foldr (· ++ ·) []

theorem trimL_eq_self (l : List Char) (h1 : ∀ c, l.head? = some c → isWsJS c = false)
    (h2 : ∀ c, l.getLast? = some c → isWsJS c = false) : trimL l = l := by
  have hdrop : trimLeftL l = l := by
    cases l with
    | nil => rfl
    | cons a t =>
      simp only [trimLeftL, List.dropWhile_cons]
      rw [h1 a rfl]
      simp
  rw [trimL, hdrop]
  cases hrev : l.reverse with
  | nil =>
    simp only [List.dropWhile_nil]
    rw [← hrev, List.reverse_reverse]
  | cons a t =>
    have hlast : l.getLast? = some a := by
      rw [List.getLast?_eq_head?_reverse, hrev]
      rfl
    simp only [List.dropWhile_cons]
    rw [h2 a hlast]
    simp only [Bool.false_eq_true, if_false]
    rw [← hrev, List.reverse_reverse]

/-! ## `parseFloat` and the cell-value pipeline (sheetUpdater.ts) -/

/-- Model of JS `parseFloat` on the fragment reachable here: an optional run
of digits, an optional dot, an optional run of digits, with any trailing
junk ignored (`parseFloat` parses the longest numeric prefix); `none` is
`NaN` (no digits at all). Signs and exponents never occur in this program's
inputs. -/
def parseFloatL (l : List Char) : Option ℚ :=
  let ip := l.takeWhile isDigitC
  let r1 := l.dropWhile isDigitC
  match r1 with
  | '.' :: r2 =>
    let fp := r2.takeWhile isDigitC
    if ip = [] && fp = [] then none
    else some (digitsValQ ip + digitsValQ fp / (10 : ℚ) ^ fp.length)
  | _ => if ip = [] then none else some (digitsValQ ip)

/-- One pass of the global regex replace `/R\$\s*/g → ''` in `parseValue`:
every occurrence of `R$` followed by greedy whitespace is removed. -/
def stripCurAux : Nat → List Char → List Char
  | 0, _ => []
  | _ + 1, [] => []
  | fuel + 1, a :: rest =>
    if a = 'R' ∧ rest.head? = some '$' then
      stripCurAux fuel (rest.tail.dropWhile isWsJS)
    else a :: stripCurAux fuel rest

/-- `cellValue.replace(/R\$\s*/g, '')`. -/
def stripCur (l : List Char) : List Char := stripCurAux l.length l

/-- `replace(/\./g, '')`: remove thousands separators. -/
def removeDots (l : List Char) : List Char := l.filter (fun c => !(c = '.'))

/-- `replace(/,/g, '.')`: convert the decimal comma. -/
def commaToDot (l : List Char) : List Char :=
  l.map (fun c => if c = ',' then '.' else c)

/-- `SheetUpdater.parseValue`: convert sheet cell text such as `R$ 87,10`
to a number; blank or unparsable text yields 0. -/
def parseValueL (l : List Char) : ℚ :=
  if trimL l = [] then 0
  else
    match parseFloatL (trimL (commaToDot (removeDots (stripCur l)))) with
    | none => 0
    | some v => v

/-- `parseValue` on a `String` cell (with `null`/blank as `""`). -/
def parseValue (s : String) : ℚ := parseValueL s.data

/-- The integer JS `toFixed(2)` rounds to, times 100: nearest integer to
`q * 100`, ties towards the larger value (ECMA-262 `Number.toFixed`). -/
def fix2Int (q : ℚ) : Int := ⌊q * 100 + 1 / 2⌋

/-- Digits of `m / 100` with exactly two decimals: `12345 ↦ "123.45"`. -/
def fixed2Core (m : Nat) : List Char :=
  natDigits (m / 100) ++ '.' :: pad2 (m % 100)

/-- JS `value.toFixed(2)` as a character list. -/
def toFixed2L (q : ℚ) : List Char :=
  if fix2Int q < 0 then '-' :: fixed2Core (fix2Int q).natAbs
  else fixed2Core (fix2Int q).toNat

/-- The value written by `updateValue`:
`` `R$ ${finalValue.toFixed(2).replace('.', ',')}` `` (no thousands
grouping; only the first dot is replaced, and there is exactly one). -/
def updFormatL (q : ℚ) : List Char :=
  'R' :: '$' :: ' ' :: replFirst '.' ',' (toFixed2L q)

/-- `updateValue`'s formatted cell text as a `String`. -/
def updFormat (q : ℚ) : String := String.mk (updFormatL q)

/-- Thousands grouping of a reversed digit list: insert a dot after every
three characters (working from the least significant end). -/
def groupRev : List Char → List Char
  | a :: b :: c :: d :: rest => a :: b :: c :: '.' :: groupRev (d :: rest)
  | l => l

/-- pt-BR thousands grouping of a digit list: `"1234" ↦ "1.234"`. -/
def group3 (l : List Char) : List Char := (groupRev l.reverse).reverse

/-- Digits of `m / 100` grouped with dots and a decimal comma, as produced
by `toLocaleString('pt-BR', {style: 'currency'})` after the `R$` and
non-breaking space: `123456789 ↦ "1.234.567,89"`. -/
def curCore (m : Nat) : List Char :=
  group3 (natDigits (m / 100)) ++ ',' :: pad2 (m % 100)

/-- `SheetUpdater.formatCurrency`: `value.toLocaleString('pt-BR',
{style: 'currency', currency: 'BRL'})`.  The locale renders `R$`, a
non-breaking space (U+00A0), the grouped integer part, a comma and two
decimals (default `halfExpand` rounding). -/
def formatCurrencyL (q : ℚ) : List Char :=
  if fix2Int q < 0 then '-' :: 'R' :: '$' :: Char.ofNat 160 :: curCore (fix2Int q).natAbs
  else 'R' :: '$' :: Char.ofNat 160 :: curCore (fix2Int q).toNat

/-- `formatCurrency` as a `String`. -/
def formatCurrency (q : ℚ) : String := String.mk (formatCurrencyL q)

/-! ## Round-trip lemmas for the currency pipeline -/

theorem stripCurAux_no_R (fuel : Nat) (l : List Char) (hf : l.length ≤ fuel)
    (h : ∀ c ∈ l, c ≠ 'R') : stripCurAux fuel l = l := by
  induction fuel generalizing l with
  | zero =>
    have : l = [] := by
      cases l with
      | nil => rfl
      | cons a t => simp at hf
    simp [this, stripCurAux]
  | succ f ih =>
    cases l with
    | nil => rfl
    | cons a t =>
      have ha : a ≠ 'R' := h a (List.mem_cons_self a t)
      have htail : stripCurAux f t = t :=
        ih t (by simpa using Nat.le_of_succ_le_succ hf)
          (fun c hc => h c (List.mem_cons_of_mem a hc))
      unfold stripCurAux
      rw [if_neg (by tauto), htail]

theorem stripCur_no_R (l : List Char) (h : ∀ c ∈ l, c ≠ 'R') : stripCur l = l :=
  stripCurAux_no_R l.length l (Nat.le_refl _) h

theorem stripCur_currency (w : Char) (body : List Char) (hw : isWsJS w = true)
    (hhead : ∀ c, body.head? = some c → isWsJS c = false)
    (hR : ∀ c ∈ body, c ≠ 'R') :
    stripCur ('R' :: '$' :: w :: body) = body := by
  have hdw : (w :: body).dropWhile isWsJS = body := by
    rw [List.dropWhile_cons]
    simp only [hw, if_true]
    cases body with
    | nil => rfl
    | cons b t =>
      rw [List.dropWhile_cons]
      rw [hhead b rfl]
      simp
  show stripCurAux (body.length + 3) ('R' :: '$' :: w :: body) = body
  unfold stripCurAux
  rw [if_pos (by simp)]
  simp only [List.tail_cons]
  rw [hdw]
  exact stripCurAux_no_R _ body (by omega) hR

theorem takeWhile_digits_append (dl rest : List Char)
    (hd : ∀ c ∈ dl, isDigitC c = true)
    (hr : ∀ c, rest.head? = some c → isDigitC c = false) :
    (dl ++ rest).takeWhile isDigitC = dl ∧
      (dl ++ rest).dropWhile isDigitC = rest := by
  induction dl with
  | nil =>
    simp only [List.nil_append]
    constructor
    · cases rest with
      | nil => rfl
      | cons b t =>
        rw [List.takeWhile_cons]
        rw [hr b rfl]
        simp
    · cases rest with
      | nil => rfl
      | cons b t =>
        rw [List.dropWhile_cons]
        rw [hr b rfl]
        simp
  | cons a t ih =>
    have ha : isDigitC a = true := hd a (List.mem_cons_self a t)
    have iht := ih (fun c hc => hd c (List.mem_cons_of_mem a hc))
    constructor
    · rw [List.cons_append, List.takeWhile_cons, ha]
      simp only [if_true]
      rw [iht.1]
    · rw [List.cons_append, List.dropWhile_cons, ha]
      simp only [if_true]
      exact iht.2

theorem takeWhile_all_digits (dl : List Char) (hd : ∀ c ∈ dl, isDigitC c = true) :
    dl.takeWhile isDigitC = dl := by
  have := takeWhile_digits_append dl [] hd (by intro c hc; simp at hc)
  simpa using this.1

/-- `parseFloat` on `digits ++ "." ++ two digits` recovers the value. -/
theorem parseFloatL_fixed (dl : List Char) (r : Nat)
    (hd : ∀ c ∈ dl, isDigitC c = true) (hne : dl ≠ []) (hr : r < 100) :
    parseFloatL (dl ++ '.' :: pad2 r) = some ((digitsVal dl : ℚ) + (r : ℚ) / 100) := by
  have hsplit := takeWhile_digits_append dl ('.' :: pad2 r) hd
    (by intro c hc; injection hc with hc; subst hc; rfl)
  unfold parseFloatL
  simp only [hsplit.1, hsplit.2]
  have hfp : (pad2 r).takeWhile isDigitC = pad2 r :=
    takeWhile_all_digits (pad2 r) (mem_pad2_isDigit r hr)
  simp only [hfp]
  rw [if_neg (by simp [hne])]
  have hlen : (pad2 r).length = 2 := rfl
  rw [digitsValQ, digitsValQ, digitsVal_pad2 r hr, hlen]
  norm_num

theorem mem_replFirst (a b : Char) (l : List Char) :
    ∀ c ∈ replFirst a b l, c ∈ l ∨ c = b := by
  induction l with
  | nil => intro c hc; simp [replFirst] at hc
  | cons x t ih =>
    intro c hc
    simp only [replFirst] at hc
    split at hc
    · rcases List.mem_cons.mp hc with h | h
      · right; exact h
      · left; exact List.mem_cons_of_mem x h
    · rcases List.mem_cons.mp hc with h | h
      · left; simp [h]
      · rcases ih c h with h2 | h2
        · left; exact List.mem_cons_of_mem x h2
        · right; exact h2

theorem replFirst_append_of_not_mem (a b : Char) (l1 l2 : List Char)
    (h : a ∉ l1) : replFirst a b (l1 ++ l2) = l1 ++ replFirst a b l2 := by
  induction l1 with
  | nil => rfl
  | cons x t ih =>
    simp only [List.cons_append, replFirst]
    rw [if_neg (by intro hx; exact h (by simp [hx]))]
    simp only [List.append_eq]
    rw [ih (fun hx => h (List.mem_cons_of_mem x hx))]

theorem filter_eq_self_of_all {p : Char → Bool} (l : List Char)
    (h : ∀ c ∈ l, p c = true) : l.filter p = l := by
  induction l with
  | nil => rfl
  | cons a t ih =>
    rw [List.filter_cons, if_pos (h a (List.mem_cons_self a t))]
    rw [ih (fun c hc => h c (List.mem_cons_of_mem a hc))]

theorem map_eq_self_of_all {f : Char → Char} (l : List Char)
    (h : ∀ c ∈ l, f c = c) : l.map f = l := by
  induction l with
  | nil => rfl
  | cons a t ih =>
    rw [List.map_cons, h a (List.mem_cons_self a t),
      ih (fun c hc => h c (List.mem_cons_of_mem a hc))]

theorem isDigit_char_facts (c : Char) (h : isDigitC c = true) :
    c ≠ 'R' ∧ c ≠ '.' ∧ c ≠ ',' ∧ isWsJS c = false := by
  refine ⟨?_, ?_, ?_, ?_⟩
  · intro hc; subst hc; exact absurd h (by decide)
  · intro hc; subst hc; exact absurd h (by decide)
  · intro hc; subst hc; exact absurd h (by decide)
  · cases hw : isWsJS c
    · rfl
    · exfalso
      simp only [isWsJS, Bool.or_eq_true, decide_eq_true_eq] at hw
      simp only [isDigitC, Bool.and_eq_true, decide_eq_true_eq] at h
      rcases hw with ((((((hc | hc) | hc) | hc) | hc) | hc) | hc)
      · rw [hc] at h; exact absurd h (by decide)
      all_goals omega

theorem groupRev_filter : ∀ l : List Char, (∀ c ∈ l, ¬ c = '.') →
    (groupRev l).filter (fun c => !(c = '.')) = l
  | [], _ => rfl
  | [a], h => by
    show List.filter _ [a] = [a]
    exact filter_eq_self_of_all [a] (by intro c hc; simp at hc; simp [hc, h a (by simp)])
  | [a, b], h => by
    show List.filter _ [a, b] = [a, b]
    refine filter_eq_self_of_all [a, b] ?_
    intro c hc
    simp only [List.mem_cons, List.not_mem_nil, or_false] at hc
    rcases hc with rfl | rfl <;> simp [h c (by simp)]
  | [a, b, c], h => by
    show List.filter _ [a, b, c] = [a, b, c]
    refine filter_eq_self_of_all [a, b, c] ?_
    intro x hx
    simp only [List.mem_cons, List.not_mem_nil, or_false] at hx
    rcases hx with rfl | rfl | rfl <;> simp [h x (by simp)]
  | a :: b :: c :: d :: rest, h => by
    have ih := groupRev_filter (d :: rest)
      (fun x hx => h x (by simp only [List.mem_cons] at hx ⊢; tauto))
    show (a :: b :: c :: '.' :: groupRev (d :: rest)).filter (fun x => !(x = '.')) =
      a :: b :: c :: d :: rest
    simp only [List.filter_cons]
    have ha : ¬ a = '.' := h a (by simp)
    have hb : ¬ b = '.' := h b (by simp)
    have hc : ¬ c = '.' := h c (by simp)
    simp [ha, hb, hc, ih]

theorem getLast?_groupRev : ∀ l : List Char, (groupRev l).getLast? = l.getLast?
  | [] => rfl
  | [_] => rfl
  | [_, _] => rfl
  | [_, _, _] => rfl
  | a :: b :: c :: d :: rest => by
    have ih := getLast?_groupRev (d :: rest)
    have hne : groupRev (d :: rest) ≠ [] := by
      intro hnil
      have hsome : (d :: rest).getLast?.isSome := by
        rw [List.getLast?_isSome]
        simp
      rw [← ih, hnil] at hsome
      simp at hsome
    show (a :: b :: c :: '.' :: groupRev (d :: rest)).getLast? = _
    have : a :: b :: c :: '.' :: groupRev (d :: rest) =
        [a, b, c, '.'] ++ groupRev (d :: rest) := rfl
    rw [this, List.getLast?_append_of_ne_nil _ hne, ih]
    have h2 : a :: b :: c :: d :: rest = [a, b, c] ++ d :: rest := rfl
    rw [h2, List.getLast?_append_of_ne_nil _ (by simp)]

theorem mem_groupRev : ∀ (l : List Char) (c : Char), c ∈ groupRev l → c ∈ l ∨ c = '.'
  | [], c, hc => by simp [groupRev] at hc
  | [a], c, hc => by left; exact hc
  | [a, b], c, hc => by left; exact hc
  | [a, b, x], c, hc => by left; exact hc
  | a :: b :: x :: d :: rest, c, hc => by
    have hshape : groupRev (a :: b :: x :: d :: rest) =
        a :: b :: x :: '.' :: groupRev (d :: rest) := rfl
    rw [hshape] at hc
    simp only [List.mem_cons] at hc
    rcases hc with rfl | rfl | rfl | rfl | hc
    · left; simp
    · left; simp
    · left; simp
    · right; rfl
    · rcases mem_groupRev (d :: rest) c hc with h | h
      · left; simp only [List.mem_cons] at h ⊢; tauto
      · right; exact h

theorem head?_group3 (l : List Char) : (group3 l).head? = l.head? := by
  rw [group3, List.head?_reverse, getLast?_groupRev, ← List.head?_reverse,
    List.reverse_reverse]

theorem mem_group3 (l : List Char) (c : Char) (hc : c ∈ group3 l) :
    c ∈ l ∨ c = '.' := by
  rw [group3, List.mem_reverse] at hc
  rcases mem_groupRev l.reverse c hc with h | h
  · left; exact List.mem_reverse.mp h
  · right; exact h

theorem removeDots_group3 (l : List Char) (h : ∀ c ∈ l, ¬ c = '.') :
    removeDots (group3 l) = l := by
  rw [removeDots, group3, List.filter_reverse, groupRev_filter l.reverse
    (fun c hc => h c (List.mem_reverse.mp hc)), List.reverse_reverse]

theorem fix2Int_div100 (k : Nat) : fix2Int ((k : ℚ) / 100) = (k : Int) := by
  rw [fix2Int]
  have h1 : (k : ℚ) / 100 * 100 = (k : ℚ) := by norm_num
  rw [h1]
  have h2 : (k : ℚ) + 1 / 2 = ((k : Nat) : ℚ) + 1 / 2 := by norm_cast
  rw [h2, Int.floor_nat_add]
  have h3 : ⌊(1 : ℚ) / 2⌋ = 0 := by
    rw [Int.floor_eq_iff] ; norm_num
  rw [h3, add_zero]

theorem toFixed2L_div100 (k : Nat) :
    toFixed2L ((k : ℚ) / 100) = natDigits (k / 100) ++ '.' :: pad2 (k % 100) := by
  rw [toFixed2L, fix2Int_div100]
  rw [if_neg (by omega)]
  rw [Int.toNat_natCast]
  rfl

theorem natCast_div_add_mod_100 (k : Nat) :
    ((k / 100 : Nat) : ℚ) + ((k % 100 : Nat) : ℚ) / 100 = (k : ℚ) / 100 := by
  have h : 100 * (k / 100) + k % 100 = k := Nat.div_add_mod k 100
  have hc : ((k : ℚ)) = 100 * ((k / 100 : Nat) : ℚ) + ((k % 100 : Nat) : ℚ) := by
    exact_mod_cast congrArg (fun n : Nat => (n : ℚ)) h.symm
  rw [hc]
  ring

theorem head?_digits_append (dl rest : List Char)
    (hd : ∀ c ∈ dl, isDigitC c = true) (hne : dl ≠ []) :
    ∀ c, (dl ++ rest).head? = some c → isWsJS c = false := by
  intro c hc
  cases dl with
  | nil => exact absurd rfl hne
  | cons a t =>
    simp only [List.cons_append, List.head?_cons, Option.some.injEq] at hc
    subst hc
    exact (isDigit_char_facts a (hd a (List.mem_cons_self a t))).2.2.2

theorem getLast?_ends_pad2 (pre : List Char) (r : Nat) :
    ∀ c, (pre ++ pad2 r).getLast? = some c → isWsJS c = false := by
  intro c hc
  rw [List.getLast?_append_of_ne_nil _ (by simp [pad2])] at hc
  have hp : (pad2 r).getLast? = some (digitChar (r % 10)) := rfl
  rw [hp, Option.some.injEq] at hc
  subst hc
  exact (isDigit_char_facts _ (isDigitC_digitChar _ (by omega))).2.2.2

/-- Re-parsing the cell text written by `updateValue` recovers the amount
exactly, for any amount that is a whole number of cents. -/
theorem parseValue_updFormat (k : Nat) :
    parseValueL (updFormatL ((k : ℚ) / 100)) = (k : ℚ) / 100 := by
  have hdig := mem_natDigits_isDigit (k / 100)
  have hne := natDigitsAux_ne_nil (k / 100 + 1) (k / 100) (by omega)
  have hpad : ∀ c ∈ pad2 (k % 100), isDigitC c = true :=
    mem_pad2_isDigit (k % 100) (by omega)
  have hbody : ∀ c ∈ natDigits (k / 100) ++ ',' :: pad2 (k % 100), c ≠ 'R' := by
    intro c hc
    rw [List.mem_append] at hc
    rcases hc with hc | hc
    · exact (isDigit_char_facts c (hdig c hc)).1
    · rcases List.mem_cons.mp hc with rfl | hc
      · decide
      · exact (isDigit_char_facts c (hpad c hc)).1
  have hupd : updFormatL ((k : ℚ) / 100) =
      'R' :: '$' :: ' ' :: (natDigits (k / 100) ++ ',' :: pad2 (k % 100)) := by
    rw [updFormatL, toFixed2L_div100]
    rw [replFirst_append_of_not_mem _ _ _ _
      (fun hdot => absurd (isDigit_char_facts '.' (hdig '.' hdot)).2.1 (by simp))]
    rfl
  rw [hupd]
  have hheadbody : ∀ c, (natDigits (k / 100) ++ ',' :: pad2 (k % 100)).head? = some c →
      isWsJS c = false :=
    head?_digits_append _ _ hdig hne
  have hassoc : 'R' :: '$' :: ' ' :: (natDigits (k / 100) ++ ',' :: pad2 (k % 100)) =
      ('R' :: '$' :: ' ' :: (natDigits (k / 100) ++ [','])) ++ pad2 (k % 100) := by
    simp
  rw [parseValueL]
  have hhead1 : ∀ c : Char,
      ('R' :: '$' :: ' ' :: (natDigits (k / 100) ++ ',' :: pad2 (k % 100))).head? = some c →
      isWsJS c = false := by
    intro c hc
    simp only [List.head?_cons, Option.some.injEq] at hc
    subst hc
    decide
  rw [trimL_eq_self _ hhead1 (by rw [hassoc]; exact getLast?_ends_pad2 _ _)]
  rw [if_neg (by simp)]
  rw [stripCur_currency ' ' _ (by decide) hheadbody hbody]
  have hnodot : removeDots (natDigits (k / 100) ++ ',' :: pad2 (k % 100)) =
      natDigits (k / 100) ++ ',' :: pad2 (k % 100) := by
    refine filter_eq_self_of_all _ ?_
    intro c hc
    rw [List.mem_append] at hc
    rcases hc with hc | hc
    · simp [(isDigit_char_facts c (hdig c hc)).2.1]
    · rcases List.mem_cons.mp hc with rfl | hc
      · decide
      · simp [(isDigit_char_facts c (hpad c hc)).2.1]
  rw [hnodot]
  have hmapcomma : (if (',' : Char) = ',' then ('.' : Char) else ',') = '.' := by simp
  have hcomma : commaToDot (natDigits (k / 100) ++ ',' :: pad2 (k % 100)) =
      natDigits (k / 100) ++ '.' :: pad2 (k % 100) := by
    rw [commaToDot, List.map_append, List.map_cons]
    rw [hmapcomma]
    rw [map_eq_self_of_all _ (fun c hc => by
      simp [(isDigit_char_facts c (hdig c hc)).2.2.1])]
    rw [map_eq_self_of_all _ (fun c hc => by
      simp [(isDigit_char_facts c (hpad c hc)).2.2.1])]
  rw [hcomma]
  have hassoc2 : natDigits (k / 100) ++ '.' :: pad2 (k % 100) =
      (natDigits (k / 100) ++ ['.']) ++ pad2 (k % 100) := by
    simp
  rw [trimL_eq_self _ (head?_digits_append _ _ hdig hne)
      (by rw [hassoc2]; exact getLast?_ends_pad2 _ _)]
  rw [parseFloatL_fixed _ _ hdig hne (by omega)]
  show (digitsVal (natDigits (k / 100)) : ℚ) + ((k % 100 : Nat) : ℚ) / 100 = (k : ℚ) / 100
  rw [digitsVal_natDigits]
  exact natCast_div_add_mod_100 k

/-- Re-parsing `formatCurrency` output (pt-BR grouping, NBSP) recovers any
amount that is a whole number of cents. -/
theorem parseValue_formatCurrency (k : Nat) :
    parseValueL (formatCurrencyL ((k : ℚ) / 100)) = (k : ℚ) / 100 := by
  have hdig := mem_natDigits_isDigit (k / 100)
  have hne := natDigitsAux_ne_nil (k / 100 + 1) (k / 100) (by omega)
  have hpad : ∀ c ∈ pad2 (k % 100), isDigitC c = true :=
    mem_pad2_isDigit (k % 100) (by omega)
  have hg3 : ∀ c ∈ group3 (natDigits (k / 100)), isDigitC c = true ∨ c = '.' := by
    intro c hc
    rcases mem_group3 _ c hc with h | h
    · left; exact hdig c h
    · right; exact h
  have hcur : formatCurrencyL ((k : ℚ) / 100) =
      'R' :: '$' :: Char.ofNat 160 ::
        (group3 (natDigits (k / 100)) ++ ',' :: pad2 (k % 100)) := by
    rw [formatCurrencyL, fix2Int_div100]
    rw [if_neg (by omega)]
    rw [Int.toNat_natCast]
    rfl
  rw [hcur]
  have hbody : ∀ c ∈ group3 (natDigits (k / 100)) ++ ',' :: pad2 (k % 100), c ≠ 'R' := by
    intro c hc
    rw [List.mem_append] at hc
    rcases hc with hc | hc
    · rcases hg3 c hc with h | h
      · exact (isDigit_char_facts c h).1
      · subst h; decide
    · rcases List.mem_cons.mp hc with rfl | hc
      · decide
      · exact (isDigit_char_facts c (hpad c hc)).1
  have hheadg : (group3 (natDigits (k / 100))).head? = (natDigits (k / 100)).head? :=
    head?_group3 _
  have hheadbody : ∀ c,
      (group3 (natDigits (k / 100)) ++ ',' :: pad2 (k % 100)).head? = some c →
      isWsJS c = false := by
    intro c hc
    cases hgl : group3 (natDigits (k / 100)) with
    | nil =>
      rw [hgl] at hheadg
      cases hdl : natDigits (k / 100) with
      | nil => exact absurd hdl hne
      | cons a t => rw [hdl] at hheadg; simp at hheadg
    | cons a t =>
      rw [hgl] at hc
      simp only [List.cons_append, List.head?_cons, Option.some.injEq] at hc
      have hmem : a ∈ group3 (natDigits (k / 100)) := by
        rw [hgl]; exact List.mem_cons_self _ _
      have hres : isWsJS a = false := by
        rcases hg3 a hmem with h | h
        · exact (isDigit_char_facts a h).2.2.2
        · -- the head of the grouped digits is the head digit, never a dot
          rw [hgl] at hheadg
          cases hdl : natDigits (k / 100) with
          | nil => exact absurd hdl hne
          | cons b u =>
            rw [hdl] at hheadg
            simp only [List.head?_cons, Option.some.injEq] at hheadg
            rw [hheadg] at h
            have hbd : isDigitC '.' = true := by
              rw [← h]
              exact hdig b (by rw [hdl]; exact List.mem_cons_self b u)
            exact absurd hbd (by decide)
      rw [← hc]
      exact hres
  have hhead1 : ∀ c : Char,
      ('R' :: '$' :: Char.ofNat 160 ::
        (group3 (natDigits (k / 100)) ++ ',' :: pad2 (k % 100))).head? = some c →
      isWsJS c = false := by
    intro c hc
    simp only [List.head?_cons, Option.some.injEq] at hc
    subst hc
    decide
  have hassoc : 'R' :: '$' :: Char.ofNat 160 ::
      (group3 (natDigits (k / 100)) ++ ',' :: pad2 (k % 100)) =
      ('R' :: '$' :: Char.ofNat 160 :: (group3 (natDigits (k / 100)) ++ [','])) ++
        pad2 (k % 100) := by
    simp
  rw [parseValueL]
  rw [trimL_eq_self _ hhead1 (by rw [hassoc]; exact getLast?_ends_pad2 _ _)]
  rw [if_neg (by simp)]
  rw [stripCur_currency (Char.ofNat 160) _ (by decide) hheadbody hbody]
  have hnodot : removeDots (group3 (natDigits (k / 100)) ++ ',' :: pad2 (k % 100)) =
      natDigits (k / 100) ++ ',' :: pad2 (k % 100) := by
    rw [removeDots, List.filter_append]
    have h1 : removeDots (group3 (natDigits (k / 100))) = natDigits (k / 100) :=
      removeDots_group3 _ (fun c hc => (isDigit_char_facts c (hdig c hc)).2.1)
    rw [removeDots] at h1
    rw [h1]
    congr 1
    refine filter_eq_self_of_all _ ?_
    intro c hc
    rcases List.mem_cons.mp hc with rfl | hc
    · decide
    · simp [(isDigit_char_facts c (hpad c hc)).2.1]
  rw [hnodot]
  have hmapcomma : (if (',' : Char) = ',' then ('.' : Char) else ',') = '.' := by simp
  have hcomma : commaToDot (natDigits (k / 100) ++ ',' :: pad2 (k % 100)) =
      natDigits (k / 100) ++ '.' :: pad2 (k % 100) := by
    rw [commaToDot, List.map_append, List.map_cons]
    rw [hmapcomma]
    rw [map_eq_self_of_all _ (fun c hc => by
      simp [(isDigit_char_facts c (hdig c hc)).2.2.1])]
    rw [map_eq_self_of_all _ (fun c hc => by
      simp [(isDigit_char_facts c (hpad c hc)).2.2.1])]
  rw [hcomma]
  have hassoc2 : natDigits (k / 100) ++ '.' :: pad2 (k % 100) =
      (natDigits (k / 100) ++ ['.']) ++ pad2 (k % 100) := by
    simp
  rw [trimL_eq_self _ (head?_digits_append _ _ hdig hne)
      (by rw [hassoc2]; exact getLast?_ends_pad2 _ _)]
  rw [parseFloatL_fixed _ _ hdig hne (by omega)]
  show (digitsVal (natDigits (k / 100)) : ℚ) + ((k % 100 : Nat) : ℚ) / 100 = (k : ℚ) / 100
  rw [digitsVal_natDigits]
  exact natCast_div_add_mod_100 k

/-! ## Calendar model (JS `Date` semantics and `DateHelper`) -/

/-- The leap-year test used both by `getSheetConfig` and by the real
calendar: `(year % 4 === 0 && year % 100 !== 0) || year % 400 === 0`. -/
def isLeapYear (year : Nat) : Bool :=
  (year % 4 == 0 && year % 100 != 0) || (year % 400 == 0)

/-- A calendar date as JS `Date` exposes it through
`getDate`/`getMonth`+1/`getFullYear` (month is 1-based here). -/
structure CalDate where
  day : Nat
  month : Nat
  year : Nat
  deriving DecidableEq, Repr

/-- Length of a (1-based) month in the proleptic Gregorian calendar that
JS `Date` implements; months outside 1..12 are normalised before this is
consulted. -/
def daysInMonth (m y : Nat) : Nat :=
  if m = 2 then (if isLeapYear y then 29 else 28)
  else if [4, 6, 9, 11].contains m then 30
  else 31

theorem daysInMonth_pos (m y : Nat) : 1 ≤ daysInMonth m y := by
  rw [daysInMonth]
  split
  · split <;> omega
  · split <;> omega

theorem daysInMonth_le_31 (m y : Nat) : daysInMonth m y ≤ 31 := by
  rw [daysInMonth]
  split
  · split <;> omega
  · split <;> omega

theorem daysInMonth_ge_28 (m y : Nat) : 28 ≤ daysInMonth m y := by
  rw [daysInMonth]
  split
  · split <;> omega
  · split <;> omega

/-- Normalise a 1-based month (as obtained from `new Date(year, month-1, …)`)
into the range 1..12, carrying overflow into the year.  `m = 0` (JS month
index `-1`) borrows from the previous year. -/
def normMY (y m : Nat) : Nat × Nat :=
  if m = 0 then (y - 1, 12) else (y + (m - 1) / 12, (m - 1) % 12 + 1)

theorem normMY_month_range (y m : Nat) :
    1 ≤ (normMY y m).2 ∧ (normMY y m).2 ≤ 12 := by
  rw [normMY]
  split
  · simp
  · constructor
    · simp
    · have := Nat.mod_lt (m - 1) (show 0 < 12 by omega)
      simp
      omega

/-- Forward day-overflow normalisation of JS `Date`: while the day exceeds
the month length, subtract it and advance one month.  `fuel ≥ d` suffices
because each step strictly decreases the day. -/
def rollAux : Nat → Nat → Nat → Nat → CalDate
  | 0, d, m, y => ⟨d, m, y⟩
  | fuel + 1, d, m, y =>
    if d ≤ daysInMonth m y then ⟨d, m, y⟩
    else
      if m = 12 then rollAux fuel (d - daysInMonth m y) 1 (y + 1)
      else rollAux fuel (d - daysInMonth m y) (m + 1) y

/-- `new Date(year, month - 1, day)` for a 1-based `month`: month
normalisation, then day-overflow roll; `day = 0` selects the last day of
the previous month. -/
def mkDateRolled (year month day : Nat) : CalDate :=
  let p := normMY year month
  if day = 0 then
    if p.2 = 1 then ⟨31, 12, p.1 - 1⟩
    else ⟨daysInMonth (p.2 - 1) p.1, p.2 - 1, p.1⟩
  else rollAux day day p.2 p.1

/-- The calendar date one day earlier (`date.setDate(date.getDate() - 1)`
on a valid date). -/
def prevDay (t : CalDate) : CalDate :=
  if t.day > 1 then ⟨t.day - 1, t.month, t.year⟩
  else if t.month > 1 then ⟨daysInMonth (t.month - 1) t.year, t.month - 1, t.year⟩
  else ⟨31, 12, t.year - 1⟩

/-- The calendar date one day later (`date.setDate(date.getDate() + 1)`
on a valid date). -/
def nextDay (t : CalDate) : CalDate :=
  if t.day < daysInMonth t.month t.year then ⟨t.day + 1, t.month, t.year⟩
  else if t.month < 12 then ⟨1, t.month + 1, t.year⟩
  else ⟨1, 1, t.year + 1⟩

/-- Backward borrow for `setDate` with a non-positive argument: add the
previous month's length until the day number is positive, then roll
forward.  The fuel bound `|n| + 2` is ample since each borrow adds ≥ 28. -/
def borrowAux : Nat → Int → Nat → Nat → CalDate
  | 0, n, m, y => ⟨n.toNat, m, y⟩
  | fuel + 1, n, m, y =>
    if 1 ≤ n then rollAux n.toNat n.toNat m y
    else
      if m = 1 then borrowAux fuel (n + 31) 12 (y - 1)
      else borrowAux fuel (n + daysInMonth (m - 1) y) (m - 1) y

/-- JS `date.setDate(n)` on a date in month `t.month`/`t.year`:
day `n` of that month, normalised in either direction. -/
def setDateJS (t : CalDate) (n : Int) : CalDate :=
  borrowAux (n.natAbs + 2) n t.month t.year

/-- `const d = new Date(today); d.setDate(today.getDate() - i)`:
the date `i` calendar days before `t`. -/
def subDays (t : CalDate) (i : Nat) : CalDate :=
  setDateJS t ((t.day : Int) - (i : Int))

/-- A date is calendar-valid when its month is in range and its day fits
the month. -/
def validCal (t : CalDate) : Prop :=
  1 ≤ t.day ∧ t.day ≤ daysInMonth t.month t.year ∧ 1 ≤ t.month ∧ t.month ≤ 12

instance (t : CalDate) : Decidable (validCal t) := by
  rw [validCal]
  infer_instance

/-- `n.toString().padStart(2, '0')` for the day/month numbers used in
`DateHelper.formatDate`. -/
def padStart2 (n : Nat) : List Char :=
  if n < 10 then '0' :: natDigits n else natDigits n

namespace DateHelper

/-- `DateHelper.formatDate`: `dd/mm/yyyy`. -/
def formatDate (t : CalDate) : String :=
  String.mk (padStart2 t.day ++ '/' :: padStart2 t.month ++ '/' :: natDigits t.year)

end DateHelper

theorem validCal_mk (d m y : Nat) (h1 : 1 ≤ d) (h2 : d ≤ daysInMonth m y)
    (h3 : 1 ≤ m) (h4 : m ≤ 12) : validCal (⟨d, m, y⟩ : CalDate) :=
  ⟨h1, h2, h3, h4⟩

theorem rollAux_valid (fuel : Nat) : ∀ d m y, 1 ≤ d → d ≤ fuel → 1 ≤ m → m ≤ 12 →
    validCal (rollAux fuel d m y) := by
  induction fuel with
  | zero => intro d m y h1 h2 _ _; omega
  | succ f ih =>
    intro d m y h1 h2 hm1 hm2
    rw [rollAux]
    split
    · next hle => exact validCal_mk d m y h1 hle hm1 hm2
    · next hgt =>
      have hdim := daysInMonth_pos m y
      split
      · exact ih (d - daysInMonth m y) 1 (y + 1) (by omega) (by omega) (by omega) (by omega)
      · exact ih (d - daysInMonth m y) (m + 1) y (by omega) (by omega) (by omega) (by omega)

theorem rollAux_of_le (fuel d m y : Nat) (hf : 1 ≤ fuel) (hd : d ≤ daysInMonth m y) :
    rollAux fuel d m y = ⟨d, m, y⟩ := by
  cases fuel with
  | zero => omega
  | succ f => rw [rollAux, if_pos hd]

theorem mkDateRolled_valid (year month day : Nat) :
    validCal (mkDateRolled year month day) := by
  rw [mkDateRolled]
  have hrange := normMY_month_range year month
  split
  · split
    · refine validCal_mk 31 12 ((normMY year month).1 - 1) (by omega) ?_ (by omega) (by omega)
      rw [show daysInMonth 12 ((normMY year month).1 - 1) = 31 from rfl]
    · refine validCal_mk _ _ _ (daysInMonth_pos _ _) (le_refl _) (by omega) (by omega)
  · exact rollAux_valid day day (normMY year month).2 (normMY year month).1
      (by omega) (le_refl _) hrange.1 hrange.2

theorem prevDay_valid (t : CalDate) (h : validCal t) : validCal (prevDay t) := by
  obtain ⟨h1, h2, h3, h4⟩ := h
  rw [prevDay]
  split
  · exact validCal_mk _ _ _ (by omega) (by omega) h3 h4
  · split
    · exact validCal_mk _ _ _ (daysInMonth_pos _ _) (le_refl _) (by omega) (by omega)
    · refine validCal_mk 31 12 (t.year - 1) (by omega) ?_ (by omega) (by omega)
      rw [show daysInMonth 12 (t.year - 1) = 31 from rfl]

theorem nextDay_valid (t : CalDate) (h : validCal t) : validCal (nextDay t) := by
  obtain ⟨h1, h2, h3, h4⟩ := h
  rw [nextDay]
  split
  · exact validCal_mk _ _ _ (by omega) (by omega) h3 h4
  · split
    · exact validCal_mk _ _ _ (by omega) (daysInMonth_pos _ _) (by omega) (by omega)
    · exact validCal_mk _ _ _ (by omega) (daysInMonth_pos _ _) (by omega) (by omega)

/-! ## Sheet addressing and the update engine (`SheetUpdater`) -/

/-- The three mutable ledger fields. -/
inductive FieldT where
  | entrada
  | saida
  | diario
  deriving DecidableEq, Repr

/-- `SheetConfig` (src/types/index.ts). -/
structure SheetConfig where
  month : Nat
  year : Nat
  startRow : Nat
  endRow : Nat
  columnOffset : Nat
  deriving DecidableEq, Repr

/-- `UpdateRequest` (src/types/index.ts). -/
structure UpdateRequest where
  type : FieldT
  value : ℚ
  day : Nat
  month : Nat
  year : Nat
  shouldReplace : Bool
  deriving DecidableEq

/-- The storage collaborator: total map from A1-style cell names to cell
text; blank cells are the empty string. -/
def Store : Type := String → String

/-- The all-blank sheet. -/
def blankStore : Store := fun _ => ""

/-- Result of `updateValue`, together with the store it leaves behind and
the traces of `readCell`/`writeCell` calls it issued (the `BotResponse`
`details` payload is omitted; the claims only inspect `success`,
`message`, the store and the traces). -/
structure UpdateOutcome where
  success : Bool
  message : String
  store : Store
  reads : List String
  writes : List String

namespace SheetUpdater

/-- `getSheetConfig` (sheetUpdater.ts lines 25-53). -/
def getSheetConfig (month year : Nat) : SheetConfig :=
  let columnOffset := (month - 1) * 6
  let startRow := 6
  let endRow :=
    if month = 2 then (if isLeapYear year then 34 else 33)
    else if [4, 6, 9, 11].contains month then 35 else 36
  ⟨month, year, startRow, endRow, columnOffset⟩

/-- The number of valid days of a month as `updateValue` computes it:
`config.endRow - config.startRow + 1`. -/
def lastValidDay (month year : Nat) : Nat :=
  (getSheetConfig month year).endRow - (getSheetConfig month year).startRow + 1

/-- `columnToLetter` (0 = A, 1 = B, …), fuel structural version of the
source's `while (column >= 0)` loop. -/
def columnToLetterAux : Nat → Nat → List Char
  | 0, _ => []
  | fuel + 1, column =>
    if column < 26 then [Char.ofNat (column % 26 + 65)]
    else columnToLetterAux fuel (column / 26 - 1) ++ [Char.ofNat (column % 26 + 65)]

/-- `columnToLetter` as a character list. -/
def columnToLetterL (column : Nat) : List Char := columnToLetterAux (column + 1) column

/-- `columnToLetter` as a string. -/
def columnToLetter (column : Nat) : String := String.mk (columnToLetterL column)

/-- `getColumnLetter`: base column of the field (entrada = 2, saida = 3,
diario = 4) plus the month block offset. -/
def getColumnLetter (type : FieldT) (columnOffset : Nat) : List Char :=
  columnToLetterL
    ((match type with
      | .entrada => 2
      | .saida => 3
      | .diario => 4) + columnOffset)

/-- `getRowNumber`: day 1 is `startRow`. -/
def getRowNumber (day : Nat) (config : SheetConfig) : Nat :=
  config.startRow + (day - 1)

/-- A1-style cell name from a column number and a row number. -/
def cellName (col row : Nat) : String :=
  String.mk (columnToLetterL col ++ natDigits row)

/-- The cell addressed by `updateValue` for a request. -/
def cellOf (type : FieldT) (day month year : Nat) : String :=
  String.mk (getColumnLetter type (getSheetConfig month year).columnOffset ++
    natDigits (getRowNumber day (getSheetConfig month year)))

/-- The value `updateValue` writes: the request value when replacing,
otherwise the parsed current cell content plus the request value. -/
def finalV (request : UpdateRequest) (st : Store) : ℚ :=
  if request.shouldReplace then request.value
  else parseValue (st (cellOf request.type request.day request.month request.year)) +
    request.value

/-- The `typeLabel` table of `updateValue`. -/
def typeLabel : FieldT → String
  | .entrada => "Entrada"
  | .saida => "Saída"
  | .diario => "Diário"

/-- The success message of `updateValue`. -/
def updMessage (request : UpdateRequest) (finalValue : ℚ) : String :=
  if request.shouldReplace then
    "✅ " ++ typeLabel request.type ++ " substituído para " ++ updFormat finalValue ++
      " em " ++ DateHelper.formatDate (mkDateRolled request.year request.month request.day)
  else
    "✅ " ++ typeLabel request.type ++ " de " ++ updFormat request.value ++
      " adicionado em " ++
      DateHelper.formatDate (mkDateRolled request.year request.month request.day) ++
      " (Total: " ++ updFormat finalValue ++ ")"

/-- `updateValue` (sheetUpdater.ts lines 104-180).  The outcome carries the
store left behind and the traces of `readCell`/`writeCell` calls; the
`BotResponse.details` payload is omitted (no claim inspects it).  Storage
faults are the collaborator's concern (`catch` branch); the model's store
is total. -/
def updateValue (request : UpdateRequest) (st : Store) : UpdateOutcome :=
  if request.day < 1 ∨ request.day > 31 then
    ⟨false, "Dia inválido: " ++ natStr request.day, st, [], []⟩
  else if request.day > lastValidDay request.month request.year then
    ⟨false,
      "O mês " ++ natStr request.month ++ "/" ++ natStr request.year ++
        " só tem " ++ natStr (lastValidDay request.month request.year) ++ " dias",
      st, [], []⟩
  else
    ⟨true, updMessage request (finalV request st),
      fun r =>
        if r = cellOf request.type request.day request.month request.year then
          updFormat (finalV request st)
        else st r,
      if request.shouldReplace then []
      else [cellOf request.type request.day request.month request.year],
      [cellOf request.type request.day request.month request.year]⟩

end SheetUpdater

theorem lastValidDay_le_31 (m y : Nat) : SheetUpdater.lastValidDay m y ≤ 31 := by
  rw [SheetUpdater.lastValidDay, SheetUpdater.getSheetConfig]
  dsimp only
  split
  · split <;> omega
  · split <;> omega

theorem lastValidDay_pos (m y : Nat) : 1 ≤ SheetUpdater.lastValidDay m y := by
  rw [SheetUpdater.lastValidDay, SheetUpdater.getSheetConfig]
  dsimp only
  split
  · split <;> omega
  · split <;> omega

/-- `lastValidDay` (from the sheet layout) agrees with the real calendar
month length for every month number and year. -/
theorem lastValidDay_eq_daysInMonth (m y : Nat) :
    SheetUpdater.lastValidDay m y = daysInMonth m y := by
  rw [SheetUpdater.lastValidDay, SheetUpdater.getSheetConfig, daysInMonth]
  dsimp only
  split
  · split <;> omega
  · split <;> omega

theorem updateValue_of_valid (req : UpdateRequest) (st : Store)
    (h1 : 1 ≤ req.day) (h2 : req.day ≤ SheetUpdater.lastValidDay req.month req.year) :
    SheetUpdater.updateValue req st =
      ⟨true, SheetUpdater.updMessage req (SheetUpdater.finalV req st),
        fun r =>
          if r = SheetUpdater.cellOf req.type req.day req.month req.year then
            updFormat (SheetUpdater.finalV req st)
          else st r,
        if req.shouldReplace then []
        else [SheetUpdater.cellOf req.type req.day req.month req.year],
        [SheetUpdater.cellOf req.type req.day req.month req.year]⟩ := by
  have h31 := lastValidDay_le_31 req.month req.year
  rw [SheetUpdater.updateValue, if_neg (by omega), if_neg (by omega)]

theorem parseValue_blank : parseValue "" = 0 := rfl

theorem parseValue_mk (l : List Char) : parseValue (String.mk l) = parseValueL l := rfl

theorem fix2Int_eq (q : ℚ) (z : Int) (h1 : (z : ℚ) ≤ q * 100 + 1 / 2)
    (h2 : q * 100 + 1 / 2 < (z : ℚ) + 1) : fix2Int q = z := by
  rw [fix2Int]
  exact Int.floor_eq_iff.mpr ⟨h1, by exact_mod_cast h2⟩

theorem updFormat_congr (q : ℚ) (k : Nat) (h : fix2Int q = (k : Int)) :
    updFormat q = updFormat ((k : ℚ) / 100) := by
  rw [updFormat, updFormat, updFormatL, updFormatL, toFixed2L, toFixed2L, h,
    fix2Int_div100]

theorem updFormatL_cents (k : Nat) :
    updFormatL ((k : ℚ) / 100) =
      'R' :: '$' :: ' ' :: replFirst '.' ',' (natDigits (k / 100) ++ '.' :: pad2 (k % 100)) := by
  rw [updFormatL, toFixed2L_div100]

theorem parseValue_updFormat_cents (k : Nat) :
    parseValue (updFormat ((k : ℚ) / 100)) = (k : ℚ) / 100 :=
  parseValue_updFormat k

/-! ## Claim C3: invalid-day requests fail without writing -/

/-- C3 counterexample: the request for day 32 of January 2025 exceeds the
month's valid day count (`lastValidDay 1 2025 = 31`), yet `updateValue`
rejects it via the earlier generic range guard with the message
`Dia inválido: 32`, which does not name the month's valid day count —
refuting the claim as stated for days above 31. -/
theorem C3_counterexample :
    SheetUpdater.lastValidDay 1 2025 < 32 ∧
    (SheetUpdater.updateValue ⟨.entrada, 5, 32, 1, 2025, false⟩ blankStore).message =
      "Dia inválido: " ++ natStr 32 ∧
    (SheetUpdater.updateValue ⟨.entrada, 5, 32, 1, 2025, false⟩ blankStore).message ≠
      "O mês " ++ natStr 1 ++ "/" ++ natStr 2025 ++
        " só tem " ++ natStr (SheetUpdater.lastValidDay 1 2025) ++ " dias" :=
  ⟨by decide, rfl, by decide⟩

/-- C3 (amended): every request whose day exceeds the month's valid day
count (`lastValidDay`) is rejected as a structured failure that leaves the
store untouched and issues no reads or writes — the day is never clamped;
the message names the month's valid day count when the day is at most 31,
while days above 31 hit the earlier generic range guard whose message
`Dia inválido: N` names only the offending day. -/
theorem C3_invalid_day_fails (req : UpdateRequest) (st : Store)
    (h : SheetUpdater.lastValidDay req.month req.year < req.day) :
    (SheetUpdater.updateValue req st).success = false ∧
    (SheetUpdater.updateValue req st).store = st ∧
    (SheetUpdater.updateValue req st).reads = [] ∧
    (SheetUpdater.updateValue req st).writes = [] ∧
    (SheetUpdater.updateValue req st).message =
      (if req.day ≤ 31 then
        "O mês " ++ natStr req.month ++ "/" ++ natStr req.year ++
          " só tem " ++ natStr (SheetUpdater.lastValidDay req.month req.year) ++ " dias"
      else "Dia inválido: " ++ natStr req.day) := by
  have hpos := lastValidDay_pos req.month req.year
  by_cases h31 : req.day ≤ 31
  · rw [SheetUpdater.updateValue, if_neg (show ¬(req.day < 1 ∨ req.day > 31) by omega),
      if_pos (show req.day > SheetUpdater.lastValidDay req.month req.year from h)]
    exact ⟨rfl, rfl, rfl, rfl, by rw [if_pos h31]⟩
  · rw [SheetUpdater.updateValue, if_pos (show req.day < 1 ∨ req.day > 31 by omega)]
    exact ⟨rfl, rfl, rfl, rfl, by rw [if_neg h31]⟩

theorem C3_witness :
    SheetUpdater.lastValidDay 4 2025 < 31 ∧
    ((SheetUpdater.updateValue ⟨.entrada, 5, 31, 4, 2025, false⟩ blankStore).success = false ∧
     (SheetUpdater.updateValue ⟨.entrada, 5, 31, 4, 2025, false⟩ blankStore).store =
       blankStore ∧
     (SheetUpdater.updateValue ⟨.entrada, 5, 31, 4, 2025, false⟩ blankStore).reads = [] ∧
     (SheetUpdater.updateValue ⟨.entrada, 5, 31, 4, 2025, false⟩ blankStore).writes = [] ∧
     (SheetUpdater.updateValue ⟨.entrada, 5, 31, 4, 2025, false⟩ blankStore).message =
       (if (31 : Nat) ≤ 31 then
         "O mês " ++ natStr 4 ++ "/" ++ natStr 2025 ++
           " só tem " ++ natStr (SheetUpdater.lastValidDay 4 2025) ++ " dias"
       else "Dia inválido: " ++ natStr 31)) :=
  ⟨by decide, C3_invalid_day_fails ⟨.entrada, 5, 31, 4, 2025, false⟩ blankStore (by decide)⟩

/-! ## Claim C4: the month layout's valid day counts -/

/-- C4: the last valid day computed from the sheet layout
(`endRow - startRow + 1`) is 31 for months 1,3,5,7,8,10,12; 30 for
4,6,9,11; and for February 29 in leap years (divisible by 4 and not by
100, unless also divisible by 400), else 28; in particular
`lastValidDay 2 2024 = 29`, `lastValidDay 2 2023 = 28`,
`lastValidDay 4 y = 30` and `lastValidDay 1 y = 31` for every `y`. -/
theorem C4_last_valid_day (y m : Nat) :
    (m ∈ [1, 3, 5, 7, 8, 10, 12] → SheetUpdater.lastValidDay m y = 31) ∧
    (m ∈ [4, 6, 9, 11] → SheetUpdater.lastValidDay m y = 30) ∧
    (isLeapYear y = true → SheetUpdater.lastValidDay 2 y = 29) ∧
    (isLeapYear y = false → SheetUpdater.lastValidDay 2 y = 28) ∧
    (isLeapYear y = true ↔ (y % 4 = 0 ∧ y % 100 ≠ 0) ∨ y % 400 = 0) ∧
    SheetUpdater.lastValidDay 2 2024 = 29 ∧ SheetUpdater.lastValidDay 2 2023 = 28 ∧
    SheetUpdater.lastValidDay 4 y = 30 ∧ SheetUpdater.lastValidDay 1 y = 31 := by
  refine ⟨?_, ?_, ?_, ?_, ?_, by decide, by decide, rfl, rfl⟩
  · intro hm
    simp only [List.mem_cons, List.not_mem_nil, or_false] at hm
    rcases hm with rfl | rfl | rfl | rfl | rfl | rfl | rfl <;> rfl
  · intro hm
    simp only [List.mem_cons, List.not_mem_nil, or_false] at hm
    rcases hm with rfl | rfl | rfl | rfl <;> rfl
  · intro hleap
    simp [SheetUpdater.lastValidDay, SheetUpdater.getSheetConfig, hleap]
  · intro hleap
    simp [SheetUpdater.lastValidDay, SheetUpdater.getSheetConfig, hleap]
  · rw [isLeapYear]
    simp only [Bool.or_eq_true, Bool.and_eq_true, beq_iff_eq, bne_iff_ne]

theorem C4_witness :
    (isLeapYear 2024 = true ∧ SheetUpdater.lastValidDay 2 2024 = 29) ∧
    (isLeapYear 2023 = false ∧ SheetUpdater.lastValidDay 2 2023 = 28) ∧
    ((7 : Nat) ∈ [1, 3, 5, 7, 8, 10, 12] ∧ SheetUpdater.lastValidDay 7 2025 = 31) ∧
    ((9 : Nat) ∈ [4, 6, 9, 11] ∧ SheetUpdater.lastValidDay 9 2025 = 30) :=
  ⟨⟨by decide, (C4_last_valid_day 2024 2).2.2.1 (by decide)⟩,
   ⟨by decide, (C4_last_valid_day 2023 2).2.2.2.1 (by decide)⟩,
   ⟨by decide, (C4_last_valid_day 2025 7).1 (by decide)⟩,
   ⟨by decide, (C4_last_valid_day 2025 9).2.1 (by decide)⟩⟩

/-! ## Claim C10: frame property of a successful update -/

/-- C10: a successful `updateValue` issues exactly one `writeCell`, to the
single cell addressed by (field, day, month, year); every other cell of
the store is unchanged; and with `replace = true` no `readCell` is issued,
so the written value is `updFormat request.value` independent of the prior
store contents. -/
theorem C10_frame (req : UpdateRequest) (st : Store) :
    ((SheetUpdater.updateValue req st).success = true →
      (SheetUpdater.updateValue req st).writes =
        [SheetUpdater.cellOf req.type req.day req.month req.year] ∧
      (∀ r : String, r ≠ SheetUpdater.cellOf req.type req.day req.month req.year →
        (SheetUpdater.updateValue req st).store r = st r)) ∧
    (req.shouldReplace = true →
      (SheetUpdater.updateValue req st).reads = [] ∧
      ((SheetUpdater.updateValue req st).success = true →
        (SheetUpdater.updateValue req st).store
          (SheetUpdater.cellOf req.type req.day req.month req.year) =
          updFormat req.value)) := by
  rw [SheetUpdater.updateValue]
  split
  · refine ⟨fun hsucc => by simp at hsucc, fun hrep => ⟨rfl, fun hsucc => by simp at hsucc⟩⟩
  · split
    · refine ⟨fun hsucc => by simp at hsucc, fun hrep => ⟨rfl, fun hsucc => by simp at hsucc⟩⟩
    · refine ⟨fun _ => ⟨rfl, fun r hr => ?_⟩, fun hrep => ⟨?_, fun _ => ?_⟩⟩
      · dsimp only
        rw [if_neg hr]
      · dsimp only
        rw [if_pos hrep]
      · dsimp only
        rw [if_pos rfl, SheetUpdater.finalV, if_pos hrep]

theorem C10_witness :
    (SheetUpdater.updateValue ⟨.saida, 7, 10, 3, 2025, true⟩ blankStore).writes =
      [SheetUpdater.cellOf .saida 10 3 2025] ∧
    (SheetUpdater.updateValue ⟨.saida, 7, 10, 3, 2025, true⟩ blankStore).reads = [] :=
  ⟨((C10_frame ⟨.saida, 7, 10, 3, 2025, true⟩ blankStore).1 (by decide)).1,
   ((C10_frame ⟨.saida, 7, 10, 3, 2025, true⟩ blankStore).2 rfl).1⟩

/-! ## Claim C1: add-twice and replace-twice semantics -/

/-- C1 (amended): for every amount `X = k/100 > 0` with at most two decimal
places and every valid (field, day, month, year), two `updateValue` calls
with `replace = false` starting from a blank cell leave the cell storing
the currency-formatted `2X`, and two calls with `replace = true` (from any
starting store) leave it storing the formatted `X`, independent of the
first write. -/
theorem C1_update_twice (k : Nat) (f : FieldT) (d m y : Nat) (st : Store)
    (_hk : 1 ≤ k) (hd1 : 1 ≤ d) (hd2 : d ≤ SheetUpdater.lastValidDay m y) :
    (SheetUpdater.updateValue ⟨f, (k : ℚ) / 100, d, m, y, false⟩
        (SheetUpdater.updateValue ⟨f, (k : ℚ) / 100, d, m, y, false⟩ blankStore).store).store
      (SheetUpdater.cellOf f d m y) = updFormat (2 * ((k : ℚ) / 100)) ∧
    (SheetUpdater.updateValue ⟨f, (k : ℚ) / 100, d, m, y, true⟩
        (SheetUpdater.updateValue ⟨f, (k : ℚ) / 100, d, m, y, true⟩ st).store).store
      (SheetUpdater.cellOf f d m y) = updFormat ((k : ℚ) / 100) := by
  constructor
  · have hst1 : (SheetUpdater.updateValue ⟨f, (k : ℚ) / 100, d, m, y, false⟩ blankStore).store =
        fun r => if r = SheetUpdater.cellOf f d m y then
          updFormat (SheetUpdater.finalV ⟨f, (k : ℚ) / 100, d, m, y, false⟩ blankStore)
        else blankStore r := by
      rw [updateValue_of_valid _ _ hd1 hd2]
    have hfin1 : SheetUpdater.finalV ⟨f, (k : ℚ) / 100, d, m, y, false⟩ blankStore =
        (k : ℚ) / 100 := by
      rw [SheetUpdater.finalV, if_neg (by simp)]
      show parseValue "" + (k : ℚ) / 100 = (k : ℚ) / 100
      rw [parseValue_blank, zero_add]
    rw [hst1, updateValue_of_valid _ _ hd1 hd2]
    dsimp only
    rw [if_pos rfl]
    have hfin2 : SheetUpdater.finalV ⟨f, (k : ℚ) / 100, d, m, y, false⟩
        (fun r => if r = SheetUpdater.cellOf f d m y then
          updFormat (SheetUpdater.finalV ⟨f, (k : ℚ) / 100, d, m, y, false⟩ blankStore)
        else blankStore r) = 2 * ((k : ℚ) / 100) := by
      rw [SheetUpdater.finalV, if_neg (by simp)]
      dsimp only
      rw [if_pos rfl, hfin1, parseValue_updFormat_cents, two_mul]
    rw [hfin2]
  · have hst1 : (SheetUpdater.updateValue ⟨f, (k : ℚ) / 100, d, m, y, true⟩ st).store =
        fun r => if r = SheetUpdater.cellOf f d m y then
          updFormat (SheetUpdater.finalV ⟨f, (k : ℚ) / 100, d, m, y, true⟩ st)
        else st r := by
      rw [updateValue_of_valid _ _ hd1 hd2]
    rw [hst1, updateValue_of_valid _ _ hd1 hd2]
    dsimp only
    rw [if_pos rfl]
    have hfin2 : SheetUpdater.finalV ⟨f, (k : ℚ) / 100, d, m, y, true⟩
        (fun r => if r = SheetUpdater.cellOf f d m y then
          updFormat (SheetUpdater.finalV ⟨f, (k : ℚ) / 100, d, m, y, true⟩ st)
        else st r) = (k : ℚ) / 100 := by
      rw [SheetUpdater.finalV, if_pos rfl]
    rw [hfin2]

theorem C1_witness :
    (SheetUpdater.updateValue ⟨.entrada, (100 : ℚ) / 100, 1, 1, 2025, false⟩
        (SheetUpdater.updateValue ⟨.entrada, (100 : ℚ) / 100, 1, 1, 2025, false⟩
          blankStore).store).store
      (SheetUpdater.cellOf .entrada 1 1 2025) = updFormat (2 * ((100 : ℚ) / 100)) ∧
    (SheetUpdater.updateValue ⟨.entrada, (100 : ℚ) / 100, 1, 1, 2025, true⟩
        (SheetUpdater.updateValue ⟨.entrada, (100 : ℚ) / 100, 1, 1, 2025, true⟩
          blankStore).store).store
      (SheetUpdater.cellOf .entrada 1 1 2025) = updFormat ((100 : ℚ) / 100) :=
  C1_update_twice 100 .entrada 1 1 2025 blankStore (by decide) (by decide) (by decide)

/-- C1 counterexample: the claim quantifies over every `X > 0`, but for
`X = 0.333` two non-replacing updates on a blank cell store `R$ 0,66`
while the currency-formatted `2X` is `R$ 0,67` (the cell re-read rounds to
cents first). -/
theorem C1_counterexample :
    (SheetUpdater.updateValue ⟨.diario, (333 : ℚ) / 1000, 1, 1, 2025, false⟩
        (SheetUpdater.updateValue ⟨.diario, (333 : ℚ) / 1000, 1, 1, 2025, false⟩
          blankStore).store).store
      (SheetUpdater.cellOf .diario 1 1 2025) ≠ updFormat (2 * ((333 : ℚ) / 1000)) := by
  have hfx1 : fix2Int ((333 : ℚ) / 1000) = (33 : Int) :=
    fix2Int_eq _ 33 (by norm_num) (by norm_num)
  have hst1 : (SheetUpdater.updateValue ⟨.diario, (333 : ℚ) / 1000, 1, 1, 2025, false⟩
      blankStore).store =
      fun r => if r = SheetUpdater.cellOf .diario 1 1 2025 then
        updFormat (SheetUpdater.finalV ⟨.diario, (333 : ℚ) / 1000, 1, 1, 2025, false⟩ blankStore)
      else blankStore r := by
    rw [updateValue_of_valid _ _ (by decide) (by decide)]
  have hfin1 : SheetUpdater.finalV ⟨.diario, (333 : ℚ) / 1000, 1, 1, 2025, false⟩ blankStore =
      (333 : ℚ) / 1000 := by
    rw [SheetUpdater.finalV, if_neg (by simp)]
    show parseValue "" + (333 : ℚ) / 1000 = (333 : ℚ) / 1000
    rw [parseValue_blank, zero_add]
  rw [hst1, updateValue_of_valid _ _ (by decide) (by decide)]
  dsimp only
  rw [if_pos rfl]
  have hfin2 : SheetUpdater.finalV ⟨.diario, (333 : ℚ) / 1000, 1, 1, 2025, false⟩
      (fun r => if r = SheetUpdater.cellOf .diario 1 1 2025 then
        updFormat (SheetUpdater.finalV ⟨.diario, (333 : ℚ) / 1000, 1, 1, 2025, false⟩ blankStore)
      else blankStore r) = (663 : ℚ) / 1000 := by
    rw [SheetUpdater.finalV, if_neg (by simp)]
    dsimp only
    rw [if_pos rfl, hfin1, updFormat_congr _ 33 hfx1, parseValue_updFormat_cents]
    norm_num
  rw [hfin2]
  have hfx2 : fix2Int ((663 : ℚ) / 1000) = (66 : Int) :=
    fix2Int_eq _ 66 (by norm_num) (by norm_num)
  have h2x : 2 * ((333 : ℚ) / 1000) = (666 : ℚ) / 1000 := by norm_num
  have hfx3 : fix2Int ((666 : ℚ) / 1000) = (67 : Int) :=
    fix2Int_eq _ 67 (by norm_num) (by norm_num)
  rw [h2x, updFormat_congr _ 66 hfx2, updFormat_congr _ 67 hfx3]
  rw [updFormat, updFormat, updFormatL_cents, updFormatL_cents]
  decide

/-! ## Reading the sheet: day data, month totals, forecast -/

/-- `DayData` (src/types/index.ts). -/
structure DayData where
  day : Nat
  month : Nat
  year : Nat
  entrada : ℚ
  saida : ℚ
  diario : ℚ
  saldo : ℚ
  deriving DecidableEq, Repr

/-- `MonthSummary` (src/types/index.ts). -/
structure MonthSummary where
  month : Nat
  year : Nat
  totalEntradas : ℚ
  totalSaidas : ℚ
  totalDiario : ℚ
  saidaTotal : ℚ
  performance : ℚ
  diasComDados : Nat
  mediaDiaria : ℚ
  deriving DecidableEq, Repr

namespace SheetUpdater

/-- `readRange` over one row, columns `c1` to `c2` inclusive: the grid row
of cell texts (a blank backing cell is the empty string). -/
def readRow (st : Store) (c1 c2 row : Nat) : List String :=
  (List.range (c2 + 1 - c1)).map (fun i => st (cellName (c1 + i) row))

/-- The A1 range string `getDayData` reads (columns `C..G` of the month
block, one row). -/
def dayRange (day month year : Nat) : String :=
  String.mk (getColumnLetter .entrada (getSheetConfig month year).columnOffset ++
    natDigits (getRowNumber day (getSheetConfig month year)) ++
    ':' :: columnToLetterL (6 + (getSheetConfig month year).columnOffset) ++
    natDigits (getRowNumber day (getSheetConfig month year)))

/-- `getDayData` (sheetUpdater.ts lines 186-225): one `readRange` of the
five columns `C..G` at the day's row; the destructuring takes the first
four (`entrada`, `saida`, `diario`, `saldo`).  Returns the record together
with the range string of the single read it issued.  (The source's
`!values` zero-fallback coincides with parsing blank cells as 0.) -/
def getDayData (day month year : Nat) (st : Store) : DayData × String :=
  (⟨day, month, year,
    parseValue ((readRow st (2 + (getSheetConfig month year).columnOffset)
      (6 + (getSheetConfig month year).columnOffset)
      (getRowNumber day (getSheetConfig month year))).getD 0 ""),
    parseValue ((readRow st (2 + (getSheetConfig month year).columnOffset)
      (6 + (getSheetConfig month year).columnOffset)
      (getRowNumber day (getSheetConfig month year))).getD 1 ""),
    parseValue ((readRow st (2 + (getSheetConfig month year).columnOffset)
      (6 + (getSheetConfig month year).columnOffset)
      (getRowNumber day (getSheetConfig month year))).getD 2 ""),
    parseValue ((readRow st (2 + (getSheetConfig month year).columnOffset)
      (6 + (getSheetConfig month year).columnOffset)
      (getRowNumber day (getSheetConfig month year))).getD 3 "")⟩,
   dayRange day month year)

/-- One row of the `diasComDados` scan of `getMonthTotals`: the row counts
when it has ≥ 3 cells and any of entrada/saida/diario parses positive. -/
def hasDataRow (st : Store) (off row : Nat) : Bool :=
  3 ≤ (readRow st (2 + off) (5 + off) row).length &&
  (decide (0 < parseValue ((readRow st (2 + off) (5 + off) row).getD 0 "")) ||
   decide (0 < parseValue ((readRow st (2 + off) (5 + off) row).getD 1 "")) ||
   decide (0 < parseValue ((readRow st (2 + off) (5 + off) row).getD 2 "")))

/-- The day-counting loop of `getMonthTotals`: scan rows `startRow ..`
for `maxDay` days, where `maxDay` is today's day for the current month and
the month length otherwise. -/
def diasComDados (month year : Nat) (today : CalDate) (st : Store) : Nat :=
  ((List.range
      (if month = today.month ∧ year = today.year then today.day
        else lastValidDay month year)).filter
    (fun i => hasDataRow st ((month - 1) * 6) (6 + i))).length

/-- `getMonthTotals` (sheetUpdater.ts lines 401-480).  The five totals are
batch-read from row 40 (entrada/saida/diario columns `+2/+3/+4`) and row
43 (`+1` for saidaTotal, `+4` for performance); `(month - 1) * 6` is
`getSheetConfig`'s `columnOffset` and row 6 its `startRow`.  `today` is
the `DateHelper.getBrasiliaTime()` anchor, passed explicitly. -/
def getMonthTotals (month year : Nat) (today : CalDate) (st : Store) : MonthSummary :=
  ⟨month, year,
    parseValue (st (cellName (2 + (month - 1) * 6) 40)),
    parseValue (st (cellName (3 + (month - 1) * 6) 40)),
    parseValue (st (cellName (4 + (month - 1) * 6) 40)),
    parseValue (st (cellName (1 + (month - 1) * 6) 43)),
    parseValue (st (cellName (4 + (month - 1) * 6) 43)),
    diasComDados month year today st,
    if 0 < diasComDados month year today st then
      (parseValue (st (cellName (2 + (month - 1) * 6) 40)) +
        parseValue (st (cellName (3 + (month - 1) * 6) 40)) +
        parseValue (st (cellName (4 + (month - 1) * 6) 40))) /
        (diasComDados month year today st : ℚ)
    else 0⟩

end SheetUpdater

/-- Outcome of `getForecastReport`: either the not-applicable message
(`❌ Não há dados suficientes para fazer previsão.`) or the numeric payload
interpolated into the rendered report. -/
inductive ForecastOut where
  | insufficient
  | report (currentDay dim : Nat) (daysRemaining : Int)
      (mediaSaidas mediaDiario mediaSaidaTotal : ℚ)
      (projecaoSaidas projecaoDiario projecaoSaidaTotal projecaoPerformance : ℚ)
  deriving DecidableEq

namespace SheetUpdater

/-- `getForecastReport` (sheetUpdater.ts lines 626-684), abstracted to the
values it computes; the guard `summary.diasComDados === 0` returns the
not-applicable branch before any division happens. -/
def getForecastReport (today : CalDate) (st : Store) : ForecastOut :=
  if (getMonthTotals today.month today.year today st).diasComDados = 0 then
    .insufficient
  else
    .report today.day (lastValidDay today.month today.year)
      ((lastValidDay today.month today.year : Int) - today.day)
      ((getMonthTotals today.month today.year today st).totalSaidas /
        ((getMonthTotals today.month today.year today st).diasComDados : ℚ))
      ((getMonthTotals today.month today.year today st).totalDiario /
        ((getMonthTotals today.month today.year today st).diasComDados : ℚ))
      (((getMonthTotals today.month today.year today st).totalSaidas +
          (getMonthTotals today.month today.year today st).totalDiario) /
        ((getMonthTotals today.month today.year today st).diasComDados : ℚ))
      ((getMonthTotals today.month today.year today st).totalSaidas +
        (getMonthTotals today.month today.year today st).totalSaidas /
          ((getMonthTotals today.month today.year today st).diasComDados : ℚ) *
          (((lastValidDay today.month today.year : Int) - today.day : Int) : ℚ))
      ((getMonthTotals today.month today.year today st).totalDiario +
        (getMonthTotals today.month today.year today st).totalDiario /
          ((getMonthTotals today.month today.year today st).diasComDados : ℚ) *
          (((lastValidDay today.month today.year : Int) - today.day : Int) : ℚ))
      ((getMonthTotals today.month today.year today st).saidaTotal +
        ((getMonthTotals today.month today.year today st).totalSaidas +
            (getMonthTotals today.month today.year today st).totalDiario) /
          ((getMonthTotals today.month today.year today st).diasComDados : ℚ) *
          (((lastValidDay today.month today.year : Int) - today.day : Int) : ℚ))
      ((getMonthTotals today.month today.year today st).totalEntradas -
        ((getMonthTotals today.month today.year today st).saidaTotal +
          ((getMonthTotals today.month today.year today st).totalSaidas +
              (getMonthTotals today.month today.year today st).totalDiario) /
            ((getMonthTotals today.month today.year today st).diasComDados : ℚ) *
            (((lastValidDay today.month today.year : Int) - today.day : Int) : ℚ)))

end SheetUpdater

/-! ## Claim C2: where the month summary's derived fields come from -/

/-- C2 (amended): `getMonthTotals` does not compute `saidaTotal` and
`performance` from the other totals — it reads all five figures directly
from the designated totals cells (row 40 for entrada/saida/diario, row 43
for saidaTotal and performance), so the identities
`saidaTotal = totalSaidas + totalDiario` and
`performance = totalEntradas - saidaTotal` hold only when the stored cell
contents happen to satisfy them. -/
theorem C2_totals_read_from_cells (month year : Nat) (today : CalDate) (st : Store) :
    (SheetUpdater.getMonthTotals month year today st).totalEntradas =
      parseValue (st (SheetUpdater.cellName (2 + (month - 1) * 6) 40)) ∧
    (SheetUpdater.getMonthTotals month year today st).totalSaidas =
      parseValue (st (SheetUpdater.cellName (3 + (month - 1) * 6) 40)) ∧
    (SheetUpdater.getMonthTotals month year today st).totalDiario =
      parseValue (st (SheetUpdater.cellName (4 + (month - 1) * 6) 40)) ∧
    (SheetUpdater.getMonthTotals month year today st).saidaTotal =
      parseValue (st (SheetUpdater.cellName (1 + (month - 1) * 6) 43)) ∧
    (SheetUpdater.getMonthTotals month year today st).performance =
      parseValue (st (SheetUpdater.cellName (4 + (month - 1) * 6) 43)) :=
  ⟨rfl, rfl, rfl, rfl, rfl⟩

/-- A store whose only non-blank cell is the January `saidaTotal` totals
cell `B43`. -/
def c2Store : Store := fun s => if s = "B43" then "R$ 5,00" else ""

/-- C2 counterexample: with `B43 = R$ 5,00` and every other cell blank,
January 2025's summary has `saidaTotal = 5` but
`totalSaidas + totalDiario = 0`, and `performance = 0` but
`totalEntradas - saidaTotal = -5`: the claimed identities do not hold for
all storage contents. -/
theorem C2_counterexample :
    ¬((SheetUpdater.getMonthTotals 1 2025 ⟨1, 1, 2025⟩ c2Store).saidaTotal =
        (SheetUpdater.getMonthTotals 1 2025 ⟨1, 1, 2025⟩ c2Store).totalSaidas +
          (SheetUpdater.getMonthTotals 1 2025 ⟨1, 1, 2025⟩ c2Store).totalDiario ∧
      (SheetUpdater.getMonthTotals 1 2025 ⟨1, 1, 2025⟩ c2Store).performance =
        (SheetUpdater.getMonthTotals 1 2025 ⟨1, 1, 2025⟩ c2Store).totalEntradas -
          (SheetUpdater.getMonthTotals 1 2025 ⟨1, 1, 2025⟩ c2Store).saidaTotal) := by
  intro h
  have hsaid : (SheetUpdater.getMonthTotals 1 2025 ⟨1, 1, 2025⟩ c2Store).saidaTotal =
      ((500 : Nat) : ℚ) / 100 := by
    show parseValue (c2Store (SheetUpdater.cellName (1 + (1 - 1) * 6) 43)) =
      ((500 : Nat) : ℚ) / 100
    have hcell : c2Store (SheetUpdater.cellName (1 + (1 - 1) * 6) 43) =
        updFormat (((500 : Nat) : ℚ) / 100) := by
      rw [updFormat, updFormatL_cents]
      decide
    rw [hcell, parseValue_updFormat_cents]
  have hsaidas : (SheetUpdater.getMonthTotals 1 2025 ⟨1, 1, 2025⟩ c2Store).totalSaidas = 0 := by
    show parseValue (c2Store (SheetUpdater.cellName (3 + (1 - 1) * 6) 40)) = 0
    have hcell : c2Store (SheetUpdater.cellName (3 + (1 - 1) * 6) 40) = "" := by decide
    rw [hcell, parseValue_blank]
  have hdiario : (SheetUpdater.getMonthTotals 1 2025 ⟨1, 1, 2025⟩ c2Store).totalDiario = 0 := by
    show parseValue (c2Store (SheetUpdater.cellName (4 + (1 - 1) * 6) 40)) = 0
    have hcell : c2Store (SheetUpdater.cellName (4 + (1 - 1) * 6) 40) = "" := by decide
    rw [hcell, parseValue_blank]
  rw [hsaid, hsaidas, hdiario] at h
  have := h.1
  norm_num at this

/-! ## Claim C8: no division by zero when a month has no data -/

/-- C8: when a month has no day with data, `getMonthTotals` returns
`mediaDiaria = 0` through its explicit guard (never dividing by zero), and
`getForecastReport` returns the not-applicable message instead of
computing projections. -/
theorem C8_no_data_guard (today : CalDate) (st : Store)
    (h : (SheetUpdater.getMonthTotals today.month today.year today st).diasComDados = 0) :
    (SheetUpdater.getMonthTotals today.month today.year today st).mediaDiaria = 0 ∧
    SheetUpdater.getForecastReport today st = ForecastOut.insufficient := by
  have h' : SheetUpdater.diasComDados today.month today.year today st = 0 := h
  constructor
  · show (if 0 < SheetUpdater.diasComDados today.month today.year today st then _ else 0) = 0
    rw [if_neg (by omega)]
  · rw [SheetUpdater.getForecastReport, if_pos h]

theorem C8_witness :
    (SheetUpdater.getMonthTotals 1 2025 ⟨1, 1, 2025⟩ blankStore).mediaDiaria = 0 ∧
    SheetUpdater.getForecastReport ⟨1, 1, 2025⟩ blankStore = ForecastOut.insufficient :=
  C8_no_data_guard ⟨1, 1, 2025⟩ blankStore (by decide)

/-! ## The week report (`getWeekReport`) and `setDate` arithmetic -/

/-- The values `getWeekReport` computes (sheetUpdater.ts lines 306-347):
the seven day records in visiting order, the three accumulated totals, the
final balance, and the trace of range reads (one per `getDayData` call). -/
structure WeekData where
  days : List DayData
  totalEntradas : ℚ
  totalSaidas : ℚ
  totalDiario : ℚ
  saldoFinal : ℚ
  reads : List String

namespace SheetUpdater

/-- `getWeekReport`, abstracted to the values interpolated into the
rendered text.  The loop `for (i = 6; i >= 0; i--)` reads the day
`today - i` via one `getDayData` (hence one range read) per day; the model
date `subDays today i` is `date.setDate(today.getDate() - i)`.  `dayData`
is never `null` here (that is the storage-exception path), so every day
contributes to the sums; `saldoFinal` is the last visited day's saldo. -/
def getWeekReport (today : CalDate) (st : Store) : WeekData :=
  ⟨(((List.range 7).reverse).map (fun i =>
      getDayData (subDays today i).day (subDays today i).month (subDays today i).year st)).map
      Prod.fst,
    ((((List.range 7).reverse).map (fun i =>
      getDayData (subDays today i).day (subDays today i).month (subDays today i).year st)).map
      (fun p => p.1.entrada)).sum,
    ((((List.range 7).reverse).map (fun i =>
      getDayData (subDays today i).day (subDays today i).month (subDays today i).year st)).map
      (fun p => p.1.saida)).sum,
    ((((List.range 7).reverse).map (fun i =>
      getDayData (subDays today i).day (subDays today i).month (subDays today i).year st)).map
      (fun p => p.1.diario)).sum,
    (match ((((List.range 7).reverse).map (fun i =>
        getDayData (subDays today i).day (subDays today i).month (subDays today i).year st)).map
        Prod.fst).getLast? with
      | some dd => dd.saldo
      | none => 0),
    (((List.range 7).reverse).map (fun i =>
      getDayData (subDays today i).day (subDays today i).month (subDays today i).year st)).map
      Prod.snd⟩

end SheetUpdater

theorem subDays_zero (t : CalDate) (hv : validCal t) : subDays t 0 = t := by
  obtain ⟨d, m, y⟩ := t
  obtain ⟨h1, h2, _, _⟩ := hv
  dsimp only at h1 h2
  show setDateJS ⟨d, m, y⟩ ((d : Int) - ((0 : Nat) : Int)) = ⟨d, m, y⟩
  rw [show ((d : Int) - ((0 : Nat) : Int)) = (d : Int) by simp]
  rw [setDateJS]
  show borrowAux ((d : Int).natAbs + 2) (d : Int) m y = ⟨d, m, y⟩
  rw [show (d : Int).natAbs + 2 = ((d : Int).natAbs + 1) + 1 from rfl, borrowAux]
  rw [if_pos (by exact_mod_cast h1)]
  rw [show ((d : Int)).toNat = d by omega]
  exact rollAux_of_le d d m y (by omega) h2

theorem setDateJS_pos (t : CalDate) (k : Int) (h1 : 1 ≤ k)
    (h2 : k ≤ daysInMonth t.month t.year) :
    setDateJS t k = ⟨k.toNat, t.month, t.year⟩ := by
  rw [setDateJS]
  rw [show k.natAbs + 2 = (k.natAbs + 1) + 1 from rfl, borrowAux, if_pos h1]
  exact rollAux_of_le _ _ _ _ (by omega) (by omega)

theorem setDateJS_nonpos (t : CalDate) (k : Int) (hm2 : 2 ≤ t.month)
    (hk : -27 ≤ k) (h0 : k ≤ 0) :
    setDateJS t k = ⟨(k + daysInMonth (t.month - 1) t.year).toNat, t.month - 1, t.year⟩ := by
  have hd28 := daysInMonth_ge_28 (t.month - 1) t.year
  rw [setDateJS]
  rw [show k.natAbs + 2 = (k.natAbs + 1) + 1 from rfl, borrowAux, if_neg (by omega),
    if_neg (by omega)]
  rw [borrowAux, if_pos (by omega)]
  exact rollAux_of_le _ _ _ _ (by omega) (by omega)

theorem setDateJS_nonpos_jan (t : CalDate) (k : Int) (hm : t.month = 1)
    (hk : -27 ≤ k) (h0 : k ≤ 0) :
    setDateJS t k = ⟨(k + 31).toNat, 12, t.year - 1⟩ := by
  have h31 : daysInMonth 12 (t.year - 1) = 31 := rfl
  rw [setDateJS]
  rw [show k.natAbs + 2 = (k.natAbs + 1) + 1 from rfl, borrowAux, if_neg (by omega),
    if_pos hm]
  rw [borrowAux, if_pos (by omega)]
  exact rollAux_of_le _ _ _ _ (by omega) (by omega)

/-- Stepping `setDate` forward by one: the successor of the date `k` days
into `t`'s month is the date `k + 1` days into it, for the window the week
report visits. -/
theorem nextDay_setDateJS (t : CalDate) (hv : validCal t) (hy : 1 ≤ t.year) (k : Int)
    (hb : -5 ≤ k) (hu : k + 1 ≤ (t.day : Int)) :
    nextDay (setDateJS t k) = setDateJS t (k + 1) := by
  obtain ⟨d, m, y⟩ := t
  obtain ⟨h1, h2, h3, h4⟩ := hv
  dsimp only at h1 h2 h3 h4 hu hy ⊢
  by_cases hk1 : 1 ≤ k
  · have hdim : k ≤ daysInMonth m y := by omega
    rw [setDateJS_pos ⟨d, m, y⟩ k hk1 hdim,
      setDateJS_pos ⟨d, m, y⟩ (k + 1) (by omega) (show k + 1 ≤ daysInMonth m y by omega)]
    rw [nextDay]
    dsimp only
    rw [if_pos (by omega)]
    have he : (k + 1).toNat = k.toNat + 1 := by omega
    rw [he]
  · have hk0 : k ≤ 0 := by omega
    by_cases hm1 : m = 1
    · rw [setDateJS_nonpos_jan ⟨d, m, y⟩ k hm1 (by omega) hk0]
      have h31 : daysInMonth 12 (y - 1) = 31 := rfl
      by_cases hk00 : k = 0
      · subst hk00
        rw [nextDay]
        dsimp only
        rw [if_neg (by omega), if_neg (by omega)]
        rw [setDateJS_pos ⟨d, m, y⟩ (0 + 1) (by omega)
          (show (0 : Int) + 1 ≤ daysInMonth m y by
            have := daysInMonth_ge_28 m y
            omega)]
        have he1 : ((0 : Int) + 1).toNat = 1 := rfl
        rw [he1, hm1]
        have he2 : y - 1 + 1 = y := by omega
        rw [he2]
      · rw [nextDay]
        dsimp only
        rw [if_pos (by omega)]
        rw [setDateJS_nonpos_jan ⟨d, m, y⟩ (k + 1) hm1 (by omega) (by omega)]
        have he : (k + 1 + 31).toNat = (k + 31).toNat + 1 := by omega
        rw [he]
    · have hm2 : (2 : Nat) ≤ m := by omega
      have hd28 := daysInMonth_ge_28 (m - 1) y
      have hd31 := daysInMonth_le_31 (m - 1) y
      rw [setDateJS_nonpos ⟨d, m, y⟩ k hm2 (by omega) hk0]
      by_cases hk00 : k = 0
      · subst hk00
        rw [nextDay]
        dsimp only
        rw [if_neg (by omega), if_pos (by omega)]
        rw [setDateJS_pos ⟨d, m, y⟩ (0 + 1) (by omega)
          (show (0 : Int) + 1 ≤ daysInMonth m y by
            have := daysInMonth_ge_28 m y
            omega)]
        have he1 : ((0 : Int) + 1).toNat = 1 := rfl
        rw [he1]
        have he2 : m - 1 + 1 = m := by omega
        rw [he2]
      · rw [nextDay]
        dsimp only
        rw [if_pos (by omega)]
        rw [setDateJS_nonpos ⟨d, m, y⟩ (k + 1) hm2 (by omega) (by omega)]
        have he : (k + 1 + daysInMonth (m - 1) y).toNat =
            (k + daysInMonth (m - 1) y).toNat + 1 := by omega
        rw [he]

/-- A store where every cell reads `R$ 1,00`. -/
def oneStore : Store := fun _ => "R$ 1,00"

theorem parseValue_one : parseValue "R$ 1,00" = 1 := by
  have hcell : ("R$ 1,00" : String) = updFormat (((100 : Nat) : ℚ) / 100) := by
    rw [updFormat, updFormatL_cents]
    decide
  rw [hcell, parseValue_updFormat_cents]
  norm_num

theorem getD_map_const {α : Type} (s : String) (l : List α) (i : Nat) (h : i < l.length) :
    (l.map (fun _ => s)).getD i "" = s := by
  induction l generalizing i with
  | nil => simp at h
  | cons a t ih =>
    cases i with
    | zero => rfl
    | succ j => exact ih j (by simpa using h)

theorem readRow_oneStore (c1 c2 row i : Nat) (h : i < c2 + 1 - c1) :
    (SheetUpdater.readRow oneStore c1 c2 row).getD i "" = "R$ 1,00" := by
  rw [SheetUpdater.readRow]
  have hfun : (fun j => oneStore (SheetUpdater.cellName (c1 + j) row)) =
      fun _ : Nat => ("R$ 1,00" : String) := rfl
  rw [hfun]
  exact getD_map_const _ _ i (by simpa using h)

theorem getDayData_oneStore_saldo (d m y : Nat) :
    (SheetUpdater.getDayData d m y oneStore).1.saldo = 1 := by
  rw [SheetUpdater.getDayData]
  dsimp only
  rw [readRow_oneStore _ _ _ 3 (by omega), parseValue_one]

/-! ## Claim C6: the week report -/

/-- C6: `getWeekReport` visits exactly the 7 calendar days ending at the
anchor date inclusive (consecutive days, the last being the anchor),
issues one range read per day, sums entrada/saida/diario over those days,
and takes the final balance from the most recent day's saldo — not from
the sum of the daily saldo values (witnessed by a store where they
differ). -/
theorem C6_week_report (today : CalDate) (st : Store) (hv : validCal today)
    (hy : 1 ≤ today.year) :
    (SheetUpdater.getWeekReport today st).days =
      ((List.range 7).reverse).map (fun i =>
        (SheetUpdater.getDayData (subDays today i).day (subDays today i).month
          (subDays today i).year st).1) ∧
    (SheetUpdater.getWeekReport today st).days.length = 7 ∧
    (SheetUpdater.getWeekReport today st).reads =
      ((List.range 7).reverse).map (fun i =>
        (SheetUpdater.getDayData (subDays today i).day (subDays today i).month
          (subDays today i).year st).2) ∧
    (SheetUpdater.getWeekReport today st).reads.length = 7 ∧
    subDays today 0 = today ∧
    (∀ i : Nat, i < 6 → nextDay (subDays today (i + 1)) = subDays today i) ∧
    (SheetUpdater.getWeekReport today st).totalEntradas =
      (((List.range 7).reverse).map (fun i =>
        (SheetUpdater.getDayData (subDays today i).day (subDays today i).month
          (subDays today i).year st).1.entrada)).sum ∧
    (SheetUpdater.getWeekReport today st).totalSaidas =
      (((List.range 7).reverse).map (fun i =>
        (SheetUpdater.getDayData (subDays today i).day (subDays today i).month
          (subDays today i).year st).1.saida)).sum ∧
    (SheetUpdater.getWeekReport today st).totalDiario =
      (((List.range 7).reverse).map (fun i =>
        (SheetUpdater.getDayData (subDays today i).day (subDays today i).month
          (subDays today i).year st).1.diario)).sum ∧
    (SheetUpdater.getWeekReport today st).saldoFinal =
      (SheetUpdater.getDayData today.day today.month today.year st).1.saldo ∧
    (∃ st2 : Store, (SheetUpdater.getWeekReport today st2).saldoFinal ≠
      ((SheetUpdater.getWeekReport today st2).days.map DayData.saldo).sum) := by
  have hl : (List.range 7).reverse = [6, 5, 4, 3, 2, 1, 0] := rfl
  refine ⟨?_, ?_, ?_, ?_, subDays_zero today hv, ?_, ?_, ?_, ?_, ?_, ?_⟩
  · rw [SheetUpdater.getWeekReport]
    dsimp only
    rw [List.map_map]
    rfl
  · rw [SheetUpdater.getWeekReport]
    dsimp only
    simp
  · rw [SheetUpdater.getWeekReport]
    dsimp only
    rw [List.map_map]
    rfl
  · rw [SheetUpdater.getWeekReport]
    dsimp only
    simp
  · intro i hi
    have h1 := hv.1
    have hc1 : ((today.day : Int) - ((i + 1 : Nat) : Int)) =
        ((today.day : Int) - ((i : Int) + 1)) := by push_cast; ring
    have hstep := nextDay_setDateJS today hv hy ((today.day : Int) - ((i : Int) + 1))
      (by omega) (by omega)
    have hc2 : ((today.day : Int) - ((i : Int) + 1)) + 1 =
        ((today.day : Int) - ((i : Nat) : Int)) := by ring
    rw [subDays, subDays, hc1, hstep, hc2]
  · rw [SheetUpdater.getWeekReport]
    dsimp only
    rw [List.map_map]
    rfl
  · rw [SheetUpdater.getWeekReport]
    dsimp only
    rw [List.map_map]
    rfl
  · rw [SheetUpdater.getWeekReport]
    dsimp only
    rw [List.map_map]
    rfl
  · rw [SheetUpdater.getWeekReport]
    dsimp only
    rw [hl]
    simp only [List.map_cons, List.map_nil, List.getLast?_cons_cons,
      List.getLast?_singleton]
    rw [subDays_zero today hv]
  · refine ⟨oneStore, ?_⟩
    rw [SheetUpdater.getWeekReport]
    dsimp only
    rw [hl]
    simp only [List.map_cons, List.map_nil, List.getLast?_cons_cons,
      List.getLast?_singleton, List.sum_cons, List.sum_nil]
    simp only [getDayData_oneStore_saldo]
    norm_num

theorem C6_witness :
    subDays ⟨10, 1, 2025⟩ 0 = (⟨10, 1, 2025⟩ : CalDate) ∧
    (SheetUpdater.getWeekReport ⟨10, 1, 2025⟩ blankStore).days.length = 7 ∧
    (SheetUpdater.getWeekReport ⟨10, 1, 2025⟩ blankStore).saldoFinal =
      (SheetUpdater.getDayData 10 1 2025 blankStore).1.saldo :=
  ⟨(C6_week_report ⟨10, 1, 2025⟩ blankStore (by decide) (by decide)).2.2.2.2.1,
   (C6_week_report ⟨10, 1, 2025⟩ blankStore (by decide) (by decide)).2.1,
   (C6_week_report ⟨10, 1, 2025⟩ blankStore (by decide) (by decide)).2.2.2.2.2.2.2.2.2.1⟩

/-! ## Message parsing (`MessageParser`, src/utils/messageParser.ts) -/

/-- `toLowerCase`, restricted to ASCII letters plus the accented letters in
the bot's vocabulary (the inputs of the claims contain no others). -/
def lowerChar (c : Char) : Char :=
  if 'A' ≤ c ∧ c ≤ 'Z' then Char.ofNat (c.toNat + 32)
  else if c = 'Á' then 'á'
  else if c = 'À' then 'à'
  else if c = 'Â' then 'â'
  else if c = 'Ã' then 'ã'
  else if c = 'Ç' then 'ç'
  else if c = 'É' then 'é'
  else if c = 'Ê' then 'ê'
  else if c = 'Í' then 'í'
  else if c = 'Ó' then 'ó'
  else if c = 'Ô' then 'ô'
  else if c = 'Õ' then 'õ'
  else if c = 'Ú' then 'ú'
  else c

/-- `toLowerCase` on a character list. -/
def lowerL (l : List Char) : List Char := l.map lowerChar

/-- `startsWith` on character lists. -/
def startsWithL : List Char → List Char → Bool
  | [], _ => true
  | _ :: _, [] => false
  | a :: pre, b :: l => a = b && startsWithL pre l

/-- Regex `\s*`: drop leading whitespace. -/
def dropSpaces (l : List Char) : List Char := l.dropWhile isWsJS

/-- JS `includes`: substring test. -/
def hasSub (needle : List Char) : List Char → Bool
  | [] => needle.isEmpty
  | c :: t => startsWithL needle (c :: t) || hasSub needle t

/-- Try an ordered alternation of literal words at the start of `l`,
returning the remainder after the first word that matches. -/
def stripWordL : List (List Char) → List Char → Option (List Char)
  | [], _ => none
  | w :: ws, l => if startsWithL w l then some (l.drop w.length) else stripWordL ws l

/-- Regex `/^sub\s+/` (already-lowercased text): strip a leading `sub` plus
whitespace. -/
def stripSubL (l : List Char) : List Char :=
  match l with
  | 's' :: 'u' :: 'b' :: c :: rest =>
    if isWsJS c then dropSpaces (c :: rest) else l
  | _ => l

/-- Regex `/^sub\s+/i` (case-insensitive, used on the unlowered trimmed
message). -/
def stripSubCI (l : List Char) : List Char :=
  match l with
  | a :: b :: c :: d :: rest =>
    if lowerChar a = 's' ∧ lowerChar b = 'u' ∧ lowerChar c = 'b' ∧ isWsJS d = true then
      dropSpaces (d :: rest)
    else l
  | _ => l

/-- `MessageParser.shouldReplace`: the lowered trimmed text starts with
`sub `. -/
def shouldReplaceL (trimmed : List Char) : Bool :=
  startsWithL ("sub ".data) (lowerL trimmed)

/-- `MessageParser.normalizeValue`: trim, replace the first comma by a dot,
collapse extra dots (thousands separators) keeping only the last as the
decimal point, then `parseFloat`; `none` is `NaN`. -/
def normalizeValue (value : List Char) : Option ℚ :=
  if 2 < (splitDot (replFirst ',' '.' (trimL value))).length then
    parseFloatL (concatAll (splitDot (replFirst ',' '.' (trimL value))).dropLast ++
      '.' :: (splitDot (replFirst ',' '.' (trimL value))).getLastD [])
  else parseFloatL (replFirst ',' '.' (trimL value))

/-- The words of the balance-query alternation `(saldo|resumo|extrato)`. -/
def saldoWords : List (List Char) := [("saldo").data, ("resumo").data, ("extrato").data]

/-- Prefix test for `\d{1,2}\/\d{1,2}` (anything may follow). -/
def dayMonthStart (l : List Char) : Bool :=
  match l with
  | a :: b :: '/' :: c :: _ => isDigitC a && isDigitC b && isDigitC c
  | a :: '/' :: c :: _ => isDigitC a && isDigitC c
  | _ => false

/-- Regex `^(saldo|resumo|extrato)\s+\d{1,2}\/\d{1,2}` (test). -/
def saldoDateQuery (l : List Char) : Bool :=
  match stripWordL saldoWords l with
  | some rest =>
    (match rest with
     | c :: _ => isWsJS c
     | [] => false) && dayMonthStart (dropSpaces rest)
  | none => false

/-- Regex `^(saldo|resumo|extrato)\s+(ontem|amanha|amanhã)$`. -/
def saldoKeywordQuery (l : List Char) : Bool :=
  match stripWordL saldoWords l with
  | some rest =>
    (match rest with
     | c :: _ => isWsJS c
     | [] => false) &&
    (dropSpaces rest == ("ontem").data || dropSpaces rest == ("amanha").data ||
      dropSpaces rest == ("amanhã").data)
  | none => false

/-- Regex `^(saldo|resumo|extrato)\s*(hoje|hj)?$`. -/
def saldoTodayQuery (l : List Char) : Bool :=
  match stripWordL saldoWords l with
  | some rest =>
    dropSpaces rest == [] || dropSpaces rest == ("hoje").data ||
      dropSpaces rest == ("hj").data
  | none => false

/-- Regex `^(saldo|resumo|extrato)?\s*(w₁|w₂)$` for a pair of final words. -/
def optQuery (w1 w2 : List Char) (l : List Char) : Bool :=
  (match stripWordL saldoWords l with
   | some rest => dropSpaces rest == w1 || dropSpaces rest == w2
   | none => false) ||
  (dropSpaces l == w1 || dropSpaces l == w2)

/-- Regex `\d{1,2}\/\d{1,2}$` (for the trailing date of the bare-number
command). -/
def dateAltEnd (l : List Char) : Bool :=
  match l with
  | [a, '/', b] => isDigitC a && isDigitC b
  | [a, '/', b, c] => isDigitC a && isDigitC b && isDigitC c
  | [a, b, '/', c] => isDigitC a && isDigitC b && isDigitC c
  | [a, b, '/', c, d] => isDigitC a && isDigitC b && isDigitC c && isDigitC d
  | _ => false

/-- The optional trailing token of the bare-number command. -/
def tailAlt (l : List Char) : Bool :=
  l == [] || l == ("hoje").data || l == ("amanha").data || l == ("amanhã").data ||
    dateAltEnd l

/-- `\s*` then the optional trailing token, then `$`. -/
def afterGroup (l : List Char) : Bool := tailAlt (dropSpaces l)

/-- After the integer digits: the optional `[,.]\d{1,2}` group, then the
tail. -/
def afterNum (l : List Char) : Bool :=
  afterGroup l ||
  (match l with
   | sep :: d1 :: rest =>
     (sep = ',' || sep = '.') && isDigitC d1 &&
       (afterGroup rest ||
        (match rest with
         | d2 :: rest2 => isDigitC d2 && afterGroup rest2
         | [] => false))
   | _ => false)

/-- Backtracking continuation of `\d+`. -/
def numTail (l : List Char) : Bool :=
  afterNum l ||
  (match l with
   | c :: rest => isDigitC c && numTail rest
   | [] => false)

/-- Regex `^\d+([,.]\d{1,2})?\s*(hoje|amanha|amanhã|\d{1,2}\/\d{1,2})?$`:
the bare-number (diário) command. -/
def diarioNumber (l : List Char) : Bool :=
  match l with
  | c :: rest => isDigitC c && numTail rest
  | [] => false

/-- Take up to `n` leading digits (greedy bounded quantifier). -/
def takeDigits : Nat → List Char → (List Char × List Char)
  | 0, l => ([], l)
  | _ + 1, [] => ([], [])
  | n + 1, c :: rest =>
    if isDigitC c then
      ((takeDigits n rest).1.cons c, (takeDigits n rest).2)
    else ([], c :: rest)

/-- The optional `(?:\/\d{2,4})?` of the unanchored date pattern: returns
(consumed characters, remainder). -/
def yearOpt (l : List Char) : (List Char × List Char) :=
  match l with
  | '/' :: rest =>
    if 2 ≤ (takeDigits 4 rest).1.length then
      ('/' :: (takeDigits 4 rest).1, (takeDigits 4 rest).2)
    else ([], l)
  | _ => ([], l)

/-- After `day` digits and the first slash: month digits and the optional
year, producing (matched token, remainder). -/
def afterDayMonth (day rest : List Char) : Option (List Char × List Char) :=
  match takeDigits 2 rest with
  | ([], _) => none
  | (ms, r) =>
    some (day ++ '/' :: ms ++ (yearOpt r).1, (yearOpt r).2)

/-- Try the unanchored pattern `\d{1,2}\/\d{1,2}(?:\/\d{2,4})?` at this
position. -/
def matchDateTok (l : List Char) : Option (List Char × List Char) :=
  match l with
  | a :: b :: '/' :: rest =>
    if isDigitC a && isDigitC b then afterDayMonth [a, b] rest else none
  | a :: '/' :: rest =>
    if isDigitC a then afterDayMonth [a] rest else none
  | _ => none

/-- The first (leftmost) match of the date pattern. -/
def findDateTok : List Char → Option (List Char)
  | [] => none
  | c :: rest =>
    match matchDateTok (c :: rest) with
    | some p => some p.1
    | none => findDateTok rest

/-- Global removal of date tokens (regex global replace by the empty
string); `fuel` is the input length. -/
def stripDates : Nat → List Char → List Char
  | 0, _ => []
  | fuel + 1, l =>
    match l with
    | [] => []
    | c :: rest =>
      match matchDateTok (c :: rest) with
      | some p => stripDates fuel p.2
      | none => c :: stripDates fuel rest

/-- The keyword alternation removed before amount extraction, in regex
order. -/
def kwRemovalWords : List (List Char) :=
  [("entrada").data, ("saida").data, ("saída").data, ("diario").data,
   ("diário").data, ("hoje").data, ("amanha").data, ("amanhã").data]

/-- Global removal of the keyword alternation. -/
def stripWords : Nat → List Char → List Char
  | 0, _ => []
  | fuel + 1, l =>
    match l with
    | [] => []
    | c :: rest =>
      match stripWordL kwRemovalWords (c :: rest) with
      | some r => stripWords fuel r
      | none => c :: stripWords fuel rest

/-- The maximal numeric run `[\d]+[,.]?[\d]*` starting here. -/
def grabNum (l : List Char) : List Char :=
  match l.dropWhile isDigitC with
  | sep :: r2 =>
    if sep = ',' || sep = '.' then
      l.takeWhile isDigitC ++ sep :: r2.takeWhile isDigitC
    else l.takeWhile isDigitC
  | [] => l.takeWhile isDigitC

/-- First match of `[\d]+[,.]?[\d]*`. -/
def findNum : List Char → Option (List Char)
  | [] => none
  | c :: rest => if isDigitC c then some (grabNum (c :: rest)) else findNum rest

/-- Word character for `\b` (ASCII `\w`). -/
def isWordC (c : Char) : Bool :=
  ('a' ≤ c && c ≤ 'z') || ('A' ≤ c && c ≤ 'Z') || isDigitC c || c = '_'

/-- `\b` after a match ending in `lastc`, given the remainder. -/
def boundaryAfter (lastc : Char) (rest : List Char) : Bool :=
  isWordC lastc != (match rest with
    | c :: _ => isWordC c
    | [] => false)

/-- The keyword alternation of `extractTargetDate`. -/
def kwTargetWords : List (List Char) := [("ontem").data, ("amanha").data, ("amanhã").data]

/-- Try `\b(ontem|amanha|amanhã)\b` at this position (the leading `\b`
holds by construction of the scanner). -/
def tryKwAt (l : List Char) : Option (List Char) :=
  kwTargetWords.findSome? (fun w =>
    if startsWithL w l && boundaryAfter (w.getLastD ' ') (l.drop w.length) then some w
    else none)

/-- Scanner for `/\b(ontem|amanha|amanhã)\b/`: `prevW` is whether the
previous character is a word character (so `\b` holds iff `¬prevW`, since
every alternative starts with a word character). -/
def findKwAux : Bool → List Char → Option (List Char)
  | _, [] => none
  | prevW, c :: rest =>
    match (if prevW then none else tryKwAt (c :: rest)) with
    | some w => some w
    | none => findKwAux (isWordC c) rest

/-- After the month digits of the anchored date pattern: `$` or
`\/\d{2,4}$`. -/
def yearEndPart : List Char → Option (Option Nat)
  | [] => some none
  | '/' :: r =>
    if (r.length = 2 || r.length = 3 || r.length = 4) && r.all isDigitC then
      some (some (digitsVal r))
    else none
  | _ => none

/-- Month digits (greedy two, backtracking to one) and the year part of
the anchored pattern. -/
def monthEnd (day : Nat) (rest : List Char) : Option (Nat × Nat × Option Nat) :=
  match rest with
  | c :: d :: r2 =>
    if isDigitC c && isDigitC d then
      match yearEndPart r2 with
      | some oy => some (day, 10 * digitVal c + digitVal d, oy)
      | none =>
        match yearEndPart (d :: r2) with
        | some oy => some (day, digitVal c, oy)
        | none => none
    else
      if isDigitC c then
        match yearEndPart (d :: r2) with
        | some oy => some (day, digitVal c, oy)
        | none => none
      else none
  | [c] => if isDigitC c then some (day, digitVal c, none) else none
  | [] => none

/-- The anchored pattern `^(\d{1,2})\/(\d{1,2})(?:\/(\d{2,4}))?$` of
`DateHelper.parseDate`, returning (day, month, optional year). -/
def anchoredDate (l : List Char) : Option (Nat × Nat × Option Nat) :=
  match l with
  | a :: b :: '/' :: rest =>
    if isDigitC a && isDigitC b then monthEnd (10 * digitVal a + digitVal b) rest
    else none
  | a :: '/' :: rest =>
    if isDigitC a then monthEnd (digitVal a) rest else none
  | _ => none

namespace DateHelper

/-- `DateHelper.parseDate` (dateHelper.ts lines 23-63): `hoje`/`ontem`/
`amanha` relative to the anchor `a` (the Brasília "now"), else the
anchored `dd/mm[/yy[yy]]` pattern (2-digit years get `+2000`; a missing
year uses the anchor's), built with `new Date(year, month - 1, day)`
(rollover semantics); anything else falls back to the anchor. -/
def parseDateL (a : CalDate) (tok : List Char) : CalDate :=
  if lowerL (trimL tok) == ("hoje").data then a
  else if lowerL (trimL tok) == ("ontem").data then prevDay a
  else if lowerL (trimL tok) == ("amanha").data ∨ lowerL (trimL tok) == ("amanhã").data then
    nextDay a
  else
    match anchoredDate (lowerL (trimL tok)) with
    | some (d, m, oy) =>
      mkDateRolled
        (if (oy.getD a.year) < 100 then (oy.getD a.year) + 2000 else oy.getD a.year) m d
    | none => a

end DateHelper

/-- The command intents of `ParsedMessage.type`. -/
inductive MsgType where
  | entrada
  | saida
  | diario
  | saldo
  | resumo
  | hoje
  | semana
  | mes
  | performance
  | comparar
  | previsao
  | ajuda
  deriving DecidableEq, Repr

/-- `ParsedMessage` (src/types/index.ts); the optional `value` and
`shouldReplace` fields default to `none`/`false` (consumers read them with
`!`/`|| false`). -/
structure ParsedMessage where
  type : MsgType
  value : Option ℚ
  date : CalDate
  rawText : String
  shouldReplace : Bool
  targetDate : Option CalDate
  deriving DecidableEq

namespace MessageParser

/-- `MessageParser.detectType` (messageParser.ts lines 33-69): the ordered
regex cascade. -/
def detectType (text : List Char) : Option MsgType :=
  if stripSubL (lowerL text) == ("ajuda").data ∨
      stripSubL (lowerL text) == ("help").data ∨
      stripSubL (lowerL text) == ("?").data then some .ajuda
  else if stripSubL (lowerL text) == ("performance").data ∨
      stripSubL (lowerL text) == ("desempenho").data then some .performance
  else if stripSubL (lowerL text) == ("comparar").data ∨
      stripSubL (lowerL text) == ("comparacao").data ∨
      stripSubL (lowerL text) == ("comparação").data then some .comparar
  else if stripSubL (lowerL text) == ("previsao").data ∨
      stripSubL (lowerL text) == ("previsão").data ∨
      stripSubL (lowerL text) == ("projecao").data ∨
      stripSubL (lowerL text) == ("projeção").data ∨
      stripSubL (lowerL text) == ("forecast").data then some .previsao
  else if saldoDateQuery (stripSubL (lowerL text)) then some .saldo
  else if saldoKeywordQuery (stripSubL (lowerL text)) then some .saldo
  else if saldoTodayQuery (stripSubL (lowerL text)) then some .hoje
  else if stripSubL (lowerL text) == ("hoje").data ∨
      stripSubL (lowerL text) == ("hj").data then some .hoje
  else if stripSubL (lowerL text) == ("ontem").data then some .saldo
  else if stripSubL (lowerL text) == ("amanha").data ∨
      stripSubL (lowerL text) == ("amanhã").data then some .saldo
  else if optQuery (("semana").data) (("semanal").data) (stripSubL (lowerL text)) then
    some .semana
  else if optQuery (("mes").data) (("mês").data) (stripSubL (lowerL text)) ∨
      optQuery (("mensal").data) (("mensal").data) (stripSubL (lowerL text)) then some .mes
  else if hasSub (("entrada").data) (stripSubL (lowerL text)) then some .entrada
  else if hasSub (("saida").data) (stripSubL (lowerL text)) ∨
      hasSub (("saída").data) (stripSubL (lowerL text)) then some .saida
  else if diarioNumber (stripSubL (lowerL text)) then some .diario
  else none

/-- `MessageParser.extractTargetDate`: a `\b`-delimited relative keyword,
else the first `dd/mm[/yyyy]` token, resolved through `parseDate`. -/
def extractTargetDate (a : CalDate) (text : List Char) : Option CalDate :=
  match findKwAux false text with
  | some w => some (DateHelper.parseDateL a w)
  | none =>
    match findDateTok text with
    | some tok => some (DateHelper.parseDateL a tok)
    | none => none

/-- The cleaned text of `extractValue`: lowercase, keywords removed, trim,
dates removed, trim. -/
def extractValueClean (text : List Char) : List Char :=
  trimL (stripDates
    (trimL (stripWords (lowerL text).length (lowerL text))).length
    (trimL (stripWords (lowerL text).length (lowerL text))))

/-- `MessageParser.extractValue`: first numeric run of the cleaned text,
normalised; `none` for no match or `NaN`. -/
def extractValue (text : List Char) : Option ℚ :=
  match findNum (extractValueClean text) with
  | some numStr => normalizeValue numStr
  | none => none

/-- `MessageParser.extractDate`: `hoje`/`ontem`/`amanha` substrings first,
then the first `dd/mm[/yyyy]` token, defaulting to the anchor. -/
def extractDate (a : CalDate) (text : List Char) : CalDate :=
  if hasSub (("hoje").data) (lowerL text) then DateHelper.parseDateL a (("hoje").data)
  else if hasSub (("ontem").data) (lowerL text) then DateHelper.parseDateL a (("ontem").data)
  else if hasSub (("amanha").data) (lowerL text) ∨ hasSub (("amanhã").data) (lowerL text) then
    DateHelper.parseDateL a (("amanha").data)
  else
    match findDateTok text with
    | some tok => DateHelper.parseDateL a tok
    | none => a

/-- `MessageParser.parse` (messageParser.ts lines 168-245), with the
Brasília "now" passed as the anchor `a`. -/
def parse (a : CalDate) (message : String) : Option ParsedMessage :=
  if trimL message.data = [] then none
  else
    match detectType (if shouldReplaceL (trimL message.data) then
        stripSubCI (trimL message.data) else trimL message.data) with
    | none => none
    | some t =>
      if t = .ajuda then
        some ⟨.ajuda, none, a, String.mk (trimL message.data), false, none⟩
      else if t = .performance ∨ t = .comparar ∨ t = .previsao then
        some ⟨t, none, a, String.mk (trimL message.data), false, none⟩
      else if t = .saldo ∧ (extractTargetDate a (if shouldReplaceL (trimL message.data) then
          stripSubCI (trimL message.data) else trimL message.data)).isSome then
        some ⟨.saldo, none, a, String.mk (trimL message.data), false,
          extractTargetDate a (if shouldReplaceL (trimL message.data) then
            stripSubCI (trimL message.data) else trimL message.data)⟩
      else if t = .hoje ∨ t = .semana ∨ t = .mes then
        some ⟨t, none, a, String.mk (trimL message.data), false, none⟩
      else
        match extractValue (if shouldReplaceL (trimL message.data) then
            stripSubCI (trimL message.data) else trimL message.data) with
        | none => none
        | some v =>
          some ⟨t, some v,
            extractDate a (if shouldReplaceL (trimL message.data) then
              stripSubCI (trimL message.data) else trimL message.data),
            String.mk (trimL message.data), shouldReplaceL (trimL message.data), none⟩

end MessageParser

namespace MessageHandler

/-- The intents `handleMessage` treats as updates. -/
def toFieldT : MsgType → Option FieldT
  | .entrada => some .entrada
  | .saida => some .saida
  | .diario => some .diario
  | _ => none

/-- The `UpdateRequest` built by `handleMessage` (messageHandler.ts lines
51-65) from a parsed update command: `parsed.value!` (always set on update
intents) and `parsed.shouldReplace || false`. -/
def buildUpdateRequest (p : ParsedMessage) : Option UpdateRequest :=
  (toFieldT p.type).map (fun f =>
    ⟨f, p.value.getD 0, p.date.day, p.date.month, p.date.year, p.shouldReplace⟩)

end MessageHandler

/-! ## Claim C7: parsing `sub saida 100 16/12` -/

/-- C7: for every anchor date (with a realistic 3+-digit year, since
`parseDate` adds 2000 to 2-digit years), `parse "sub saida 100 16/12"`
yields the saida intent with amount 100, effective date 16 December of
the anchor's year, and `replace = true`. -/
theorem C7_parse_sub_saida (a : CalDate) (hy : 100 ≤ a.year) :
    MessageParser.parse a "sub saida 100 16/12" =
      some ⟨.saida, some 100, ⟨16, 12, a.year⟩, "sub saida 100 16/12", true, none⟩ := by
  obtain ⟨d, m, y⟩ := a
  dsimp only at hy ⊢
  have h0 : MessageParser.parse ⟨d, m, y⟩ "sub saida 100 16/12" =
      some ⟨.saida, some 100, mkDateRolled (if y < 100 then y + 2000 else y) 12 16,
        "sub saida 100 16/12", true, none⟩ := rfl
  rw [h0, if_neg (by omega)]
  rfl

theorem C7_witness :
    MessageParser.parse ⟨10, 12, 2025⟩ "sub saida 100 16/12" =
      some ⟨.saida, some 100, ⟨16, 12, 2025⟩, "sub saida 100 16/12", true, none⟩ :=
  C7_parse_sub_saida ⟨10, 12, 2025⟩ (by decide)

/-! ## Claim C9: date rollover makes InvalidDay unreachable from chat -/

theorem parseDateL_valid (a : CalDate) (tok : List Char) (hv : validCal a) :
    validCal (DateHelper.parseDateL a tok) := by
  rw [DateHelper.parseDateL]
  split
  · exact hv
  · split
    · exact prevDay_valid a hv
    · split
      · exact nextDay_valid a hv
      · split
        · exact mkDateRolled_valid _ _ _
        · exact hv

theorem extractDate_valid (a : CalDate) (text : List Char) (hv : validCal a) :
    validCal (MessageParser.extractDate a text) := by
  rw [MessageParser.extractDate]
  split
  · exact parseDateL_valid a _ hv
  · split
    · exact parseDateL_valid a _ hv
    · split
      · exact parseDateL_valid a _ hv
      · split
        · exact parseDateL_valid a _ hv
        · exact hv

/-- C9: `parseDate` rolls an overflowing `dd/mm` token (such as `31/04`)
forward into a later month rather than erroring, and every
`UpdateRequest` the message handler builds from a successfully parsed
chat message has a calendar-valid date, so its day never exceeds
`lastValidDay` and the InvalidDay failure branch of `updateValue` is
unreachable from the chat interface. -/
theorem C9_invalid_day_unreachable :
    (∀ a : CalDate, 100 ≤ a.year →
      DateHelper.parseDateL a (("31/04").data) = ⟨1, 5, a.year⟩) ∧
    (∀ (msg : String) (a : CalDate) (st : Store) (p : ParsedMessage) (req : UpdateRequest),
      validCal a → MessageParser.parse a msg = some p →
      MessageHandler.buildUpdateRequest p = some req →
      req.day ≤ SheetUpdater.lastValidDay req.month req.year ∧
      (SheetUpdater.updateValue req st).success = true) := by
  constructor
  · intro a hy
    obtain ⟨d, m, y⟩ := a
    dsimp only at hy ⊢
    have h0 : DateHelper.parseDateL ⟨d, m, y⟩ (("31/04").data) =
        mkDateRolled (if y < 100 then y + 2000 else y) 4 31 := rfl
    rw [h0, if_neg (by omega)]
    rfl
  · intro msg a st p req hv hp hb
    rw [MessageParser.parse] at hp
    split at hp
    · exact absurd hp (by simp)
    · generalize hcm : (if shouldReplaceL (trimL msg.data) = true then
        stripSubCI (trimL msg.data) else trimL msg.data) = cm at hp
      generalize hrep : shouldReplaceL (trimL msg.data) = rep at hp
      split at hp
      · exact absurd hp (by simp)
      · next t hdt =>
        split at hp
        · -- ajuda
          rw [Option.some.injEq] at hp
          subst hp
          simp [MessageHandler.buildUpdateRequest, MessageHandler.toFieldT] at hb
        · split at hp
          · -- performance / comparar / previsao
            next hsp =>
            rw [Option.some.injEq] at hp
            subst hp
            rcases hsp with rfl | rfl | rfl <;>
              simp [MessageHandler.buildUpdateRequest, MessageHandler.toFieldT] at hb
          · split at hp
            · -- saldo with target date
              rw [Option.some.injEq] at hp
              subst hp
              simp [MessageHandler.buildUpdateRequest, MessageHandler.toFieldT] at hb
            · split at hp
              · -- hoje / semana / mes
                next hq =>
                rw [Option.some.injEq] at hp
                subst hp
                rcases hq with rfl | rfl | rfl <;>
                  simp [MessageHandler.buildUpdateRequest, MessageHandler.toFieldT] at hb
              · -- update branch
                split at hp
                · exact absurd hp (by simp)
                · next v hval =>
                  rw [Option.some.injEq] at hp
                  subst hp
                  have hvd : validCal (MessageParser.extractDate a cm) :=
                    extractDate_valid a cm hv
                  cases t <;>
                    simp only [MessageHandler.buildUpdateRequest, MessageHandler.toFieldT,
                      Option.map_some', Option.map_none', Option.some.injEq,
                      reduceCtorEq] at hb
                  case entrada =>
                    subst hb
                    obtain ⟨hd1, hd2, hm1, hm2⟩ := hvd
                    refine ⟨?_, ?_⟩
                    · rw [lastValidDay_eq_daysInMonth]
                      exact hd2
                    · rw [updateValue_of_valid _ st hd1
                        (by rw [lastValidDay_eq_daysInMonth]; exact hd2)]
                  case saida =>
                    subst hb
                    obtain ⟨hd1, hd2, hm1, hm2⟩ := hvd
                    refine ⟨?_, ?_⟩
                    · rw [lastValidDay_eq_daysInMonth]
                      exact hd2
                    · rw [updateValue_of_valid _ st hd1
                        (by rw [lastValidDay_eq_daysInMonth]; exact hd2)]
                  case diario =>
                    subst hb
                    obtain ⟨hd1, hd2, hm1, hm2⟩ := hvd
                    refine ⟨?_, ?_⟩
                    · rw [lastValidDay_eq_daysInMonth]
                      exact hd2
                    · rw [updateValue_of_valid _ st hd1
                        (by rw [lastValidDay_eq_daysInMonth]; exact hd2)]

theorem C9_witness :
    (DateHelper.parseDateL ⟨10, 12, 2025⟩ (("31/04").data) = ⟨1, 5, 2025⟩) ∧
    ((SheetUpdater.updateValue ⟨.diario, 5, 10, 12, 2025, false⟩ blankStore).success = true) :=
  ⟨C9_invalid_day_unreachable.1 ⟨10, 12, 2025⟩ (by decide),
   (C9_invalid_day_unreachable.2 "5" ⟨10, 12, 2025⟩ blankStore
      ⟨.diario, some 5, ⟨10, 12, 2025⟩, "5", false, none⟩
      ⟨.diario, 5, 10, 12, 2025, false⟩
      (by decide) (by decide) (by decide)).2⟩

/-! ## Claim C5: amount normalisation and the currency round trip -/

/-- C5: `normalizeValue` maps `87,10` and `87.10` to 87.10 and `1.234,56`
to 1234.56 (comma decimal replaced by a point, extra points treated as
thousands separators, only the final point kept as the decimal); and every
non-negative amount with at most 2 decimal places survives a round trip
through `formatCurrency` and `parseValue`. -/
theorem C5_normalize_roundtrip :
    normalizeValue (("87,10").data) = some ((871 : ℚ) / 10) ∧
    normalizeValue (("87.10").data) = some ((871 : ℚ) / 10) ∧
    normalizeValue (("1.234,56").data) = some ((123456 : ℚ) / 100) ∧
    (∀ n : Nat, parseValue (formatCurrency ((n : ℚ) / 100)) = (n : ℚ) / 100) := by
  refine ⟨?_, ?_, ?_, fun n => parseValue_formatCurrency n⟩
  · have h : normalizeValue (("87,10").data) =
        some (((87 : Nat) : ℚ) + ((10 : Nat) : ℚ) / (10 : ℚ) ^ (2 : Nat)) := rfl
    rw [h]
    norm_num
  · have h : normalizeValue (("87.10").data) =
        some (((87 : Nat) : ℚ) + ((10 : Nat) : ℚ) / (10 : ℚ) ^ (2 : Nat)) := rfl
    rw [h]
    norm_num
  · have h : normalizeValue (("1.234,56").data) =
        some (((1234 : Nat) : ℚ) + ((56 : Nat) : ℚ) / (10 : ℚ) ^ (2 : Nat)) := rfl
    rw [h]
    norm_num
